import Mathlib

/-!
# Zeal settings dialog: download pipeline

A shallow embedding of `src/zeal/zealsettingsdialog.cpp`: the dialog's fields
become the record `Dialog`, every slot becomes a function from the dialog
state (and what the network, the file system or the registry answered) to the
new state.  Everything the dialog does to the outside world (requests, message
boxes, file system and registry calls) is appended to `Dialog.log`.
-/

namespace Zeal

/-! ## Strings, URLs, containers -/

/-- QString, as its sequence of characters. -/
abbrev QString := List Char

/-- Absolute, cleaned path of a `QDir`, as the list of its components. -/
abbrev Path := List QString

/-- The Qt call `QString::split(sep)` for a one-character separator (empty parts kept). -/
def split (sep : Char) : QString → List QString
  | [] => [[]]
  | c :: cs =>
    if c = sep then [] :: split sep cs
    else
      match split sep cs with
      | [] => [[c]]
      | w :: ws => (c :: w) :: ws

/-- The Qt call `QString::startsWith`. -/
def startsWith (s p : QString) : Bool := p.isPrefixOf s

/-- The Qt call `QString::endsWith`. -/
def endsWith (s p : QString) : Bool := p.isSuffixOf s

/-- QUrl, by the components the dialog reads and writes. -/
structure QUrl where
  scheme : QString
  host : QString
  path : QString
  query : QString
deriving DecidableEq, Repr

/-- The call `urls[k] = v` on a `QMap`/`QHash`, kept as an association list. -/
def mapInsert {α β : Type} [DecidableEq α] (k : α) (v : β) : List (α × β) → List (α × β)
  | [] => [(k, v)]
  | (k', v') :: m => if k' = k then (k, v) :: m else (k', v') :: mapInsert k v m

/-- Value stored under `k`, if any. -/
def mapLookup {α β : Type} [DecidableEq α] (k : α) : List (α × β) → Option β
  | [] => none
  | (k', v') :: m => if k' = k then some v' else mapLookup k m

/-- Removes the entry stored under `k`. -/
def mapErase {α β : Type} [DecidableEq α] (k : α) : List (α × β) → List (α × β)
  | [] => []
  | (k', v') :: m => if k' = k then m else (k', v') :: mapErase k m

/-! ## Machine integers -/

/-- Value of `x` converted to a signed two's-complement integer of `w` bits. -/
def wrapS (w : Nat) (x : Int) : Int := (x + 2 ^ (w - 1)) % 2 ^ w - 2 ^ (w - 1)

/-- Widths of the dialog's integer fields.  They are declared in
`zealsettingsdialog.h`, which is not part of the sources at hand:
`downloadBits` is the width of `currentDownload` and `totalDownload`,
`tasksBits` the width of `tasksRunning` (all signed). -/
structure Header where
  downloadBits : Nat
  tasksBits : Nat
deriving DecidableEq, Repr

/-! ## Data model -/

/-- Modelled from the spec: `ZealDocsetMetadata` (declared in
`zealdocsetmetadata.h`, not among the sources) is the spec's PackageMetadata,
a version, a feed URL and an ordered sequence of mirror URLs. -/
structure ZealDocsetMetadata where
  version : QString
  feedUrl : QString
  urls : List QString
deriving DecidableEq, Repr

/-- Slot connected to a reply's `finished()` signal. -/
inductive Slot
  | extractDocset
  | downloadDocsetList
deriving DecidableEq, Repr

/-- A `QNetworkReply` as the dialog sets it up: the URL of its request, its
dynamic properties and its signal connections. -/
structure Reply where
  url : QUrl
  listItem : Option Int
  oldMetadata : Option ZealDocsetMetadata
  metadata : Option ZealDocsetMetadata
  progressConnected : Bool
  finished : Slot
deriving DecidableEq, Repr

/-- The Qt call `QNetworkReply::error()`, by the classes the dialog tells apart. -/
inductive NetworkError
  | NoError
  | OperationCanceledError
  | OtherError
deriving DecidableEq, Repr

/-- What a finished reply and the libraries reading its body answer:
`status` is `attribute(HttpStatusCodeAttribute).toInt()`, `location` is
`rawHeader("Location")`, `body` is `readAll()` as text, `anchors` are the
`href` attributes of the first anchors of the `.drowx` elements of the body,
`feed` is what `ZealDocsetMetadata::read` finds in the body, `zipOpens` is the
result of `QuaZip::open`, `href` is the `href` of `#uc-download-link` in the
body, `tarStarted` and `tarLine` are `waitForStarted()` and `readLine()` of the
listing run of bsdtar, `files` is the result of `JlCompress::extractDir`. -/
structure Response where
  error : NetworkError
  errorString : QString
  status : Int
  location : QString
  body : QString
  anchors : List QString
  feed : ZealDocsetMetadata
  zipOpens : Bool
  href : QString
  tarStarted : Bool
  tarLine : QString
  files : List Path
deriving DecidableEq, Repr

/-- The registry, the file system and the URL library as the dialog reads
them: `names` is `docsets->names()`, `meta` is `docsets->meta`, `docsetsDir` is
`docsets->docsetsDir()`, `dataDir` is `QDir(docsetsDir).absolutePath()`,
`dataDirExists` is `QDir::exists()` of it, `dirExists` tells which directories
exist (`QDir::cd` moves only into an existing directory), `toUrl` is the
`QUrl(QString)` constructor and `urlString` is `QUrl::toString`. -/
structure World where
  names : List QString
  meta : QString → ZealDocsetMetadata
  docsetsDir : QString
  dataDir : Path
  dataDirExists : Bool
  dirExists : Path → Bool
  toUrl : QString → QUrl
  urlString : QUrl → QString

/-- A `QListWidgetItem` of `ui->docsetsList`: `ptr` is its address, `done` is
its `ZealDocsetDoneInstalling` data.  The progress roles of an item only feed
the item delegate that paints it and are not tracked. -/
structure QListWidgetItem where
  ptr : Nat
  text : QString
  checked : Bool
  done : Bool
  progressVisible : Bool
deriving DecidableEq, Repr

/-- What the dialog does to the outside world, in the order it does it.  The
arguments of the two bsdtar runs are listed without the name of the temporary
file that holds the archive. -/
inductive Effect
  | get (ptr : Nat) (reply : Reply)
  | abort (ptr : Nat)
  | warning (title text : QString)
  | critical (title text : QString)
  | tarList (args : List QString)
  | tarExtract (args : List QString)
  | rename (dir : Path) (old new : QString)
  | writeMetadata (file : Path) (metadata : ZealDocsetMetadata)
  | extractDir (dir : Path)
  | addDocset (path : Path)
  | setDone (item : Nat)
deriving DecidableEq, Repr

/-- The fields of `ZealSettingsDialog` and of its widgets that carry data.
`replies` maps a live reply to its remaining retries (`qint8`), `progress` maps
a reply to the last sample recorded for it (`QPair<qint32, qint32>`),
`objects` holds the reply objects created so far, `nextPtr` is the next free
address. -/
structure Dialog where
  tasksRunning : Int
  totalDownload : Int
  currentDownload : Int
  downloadedDocsetsList : Bool
  urls : List (QString × QString)
  replies : List (Nat × Int)
  progress : List (Nat × (Int × Int))
  docsetsList : List QListWidgetItem
  objects : List (Nat × Reply)
  nextPtr : Nat
  log : List Effect
deriving DecidableEq, Repr

/-- State left by the constructor: counters at zero, nothing listed. -/
def Dialog.init : Dialog :=
  { tasksRunning := 0, totalDownload := 0, currentDownload := 0,
    downloadedDocsetsList := false, urls := [], replies := [], progress := [],
    docsetsList := [], objects := [], nextPtr := 0, log := [] }

/-! ## Progress aggregation -/

/-- The method `ZealSettingsDialog::resetProgress`. -/
def resetProgress (d : Dialog) : Dialog :=
  { d with progress := [], totalDownload := 0, currentDownload := 0 }

/-- The method `ZealSettingsDialog::on_downloadProgress(recv, total)` with `reply` the
sender; `recv` and `total` are `quint64`.  The difference to the stored
`qint32` sample is taken in 64-bit unsigned arithmetic, added to the counter
and converted to the counter's type; the sample is stored as `qint32`. -/
def on_downloadProgress (h : Header) (d : Dialog) (reply : Nat) (recv total : Nat) : Dialog :=
  if recv > 10240 then
    let previousProgress : Int × Int := (mapLookup reply d.progress).getD (0, 0)
    let currentDownload :=
      wrapS h.downloadBits (d.currentDownload + ((recv : Int) - previousProgress.1) % 2 ^ 64)
    let totalDownload :=
      wrapS h.downloadBits (d.totalDownload + ((total : Int) - previousProgress.2) % 2 ^ 64)
    { d with
      currentDownload := currentDownload
      totalDownload := totalDownload
      progress := mapInsert reply (wrapS 32 recv, wrapS 32 total) d.progress }
  else d

/-- The dialog after a sequence of progress callbacks `(recv, total)` of one
reply. -/
def runProgress (h : Header) (d : Dialog) (reply : Nat) (cbs : List (Nat × Nat)) : Dialog :=
  cbs.foldl (fun d cb => on_downloadProgress h d reply cb.1 cb.2) d

/-- The `recv` of the last callback that passed the 10240-byte threshold, `v`
when there is none. -/
def lastRecorded (v : Nat) (cbs : List (Nat × Nat)) : Nat :=
  cbs.foldl (fun acc cb => if cb.1 > 10240 then cb.1 else acc) v

/-! ## Task counter -/

/-- The method `ZealSettingsDialog::startTasks(qint8 tasks)`. -/
def startTasks (h : Header) (d : Dialog) (tasks : Int) : Dialog :=
  let d := { d with tasksRunning := wrapS h.tasksBits (d.tasksRunning + wrapS 8 tasks) }
  if d.tasksRunning = 0 then resetProgress d else d

/-- The method `ZealSettingsDialog::endTasks(qint8 tasks)`: the completed items are taken
out of the list when the counter is not positive. -/
def endTasks (h : Header) (d : Dialog) (tasks : Int) : Dialog :=
  let d := startTasks h d (-(wrapS 8 tasks))
  if d.tasksRunning ≤ 0 then
    { d with docsetsList := d.docsetsList.filter (fun item => !item.done) }
  else d

/-! ## Helpers for the widgets and the network manager -/

/-- Appends an effect to the log. -/
def emit (d : Dialog) (e : Effect) : Dialog :=
  { d with log := d.log ++ [e] }

/-- The call `naManager.get(QNetworkRequest(url))` followed by the `setProperty` and
`connect` calls on the new reply: the reply object is created at a fresh
address, which is returned. -/
def naGet (d : Dialog) (reply : Reply) : Dialog × Nat :=
  ({ d with
      objects := d.objects ++ [(d.nextPtr, reply)]
      nextPtr := d.nextPtr + 1
      log := d.log ++ [Effect.get d.nextPtr reply] }, d.nextPtr)

/-- The call `replies.insert(reply, retries)`, the value being a `qint8`. -/
def insertReply (d : Dialog) (ptr : Nat) (retries : Int) : Dialog :=
  { d with replies := mapInsert ptr (wrapS 8 retries) d.replies }

/-- The call `ui->docsetsList->item(itemId.toInt())`: the address of the item in that
row, `none` for the null pointer.  An invalid `QVariant` converts to 0. -/
def itemAt (d : Dialog) (itemId : Option Int) : Option Nat :=
  let row := itemId.getD 0
  if row < 0 then none else (d.docsetsList.get? row.toNat).map (fun item => item.ptr)

/-- The call `new QListWidgetItem(text)` appended to `ui->docsetsList`, unchecked. -/
def addItem (d : Dialog) (text : QString) : Dialog :=
  { d with
    docsetsList := d.docsetsList ++
      [{ ptr := d.nextPtr, text := text, checked := false, done := false,
         progressVisible := false }]
    nextPtr := d.nextPtr + 1 }

/-- The call `listItem->setData(ZealDocsetDoneInstalling, true)` through the pointer. -/
def setDone (d : Dialog) (ptr : Nat) : Dialog :=
  emit { d with
    docsetsList := d.docsetsList.map
      (fun item => if item.ptr = ptr then { item with done := true } else item) }
    (Effect.setDone ptr)

/-- The Qt call `QString::replace(before, after)` for a non-empty `before`; `skip` counts
the characters of a match still to be dropped. -/
def replaceAux (before after : QString) : Nat → QString → QString
  | _, [] => []
  | skip + 1, _ :: cs => replaceAux before after skip cs
  | 0, c :: cs =>
    if before.isPrefixOf (c :: cs) then after ++ replaceAux before after (before.length - 1) cs
    else c :: replaceAux before after 0 cs

/-- The Qt call `QString::replace(before, after)`: every occurrence, left to right. -/
def replace (s before after : QString) : QString := replaceAux before after 0 s

/-- The Qt call `QString::contains(sub)`. -/
def contains : QString → QString → Bool
  | [], sub => sub.isEmpty
  | c :: cs, sub => sub.isPrefixOf (c :: cs) || contains cs sub

/-- The Qt call `QString::section("/", 0, -2)`: all fields but the last, joined again. -/
def sectionButLast (s : QString) : QString :=
  "/".toList.intercalate (split '/' s).dropLast

/-! ## Catalog download -/

/-- Loop over the anchors of the HTML catalog in `downloadDocsetList`. -/
def htmlLoop (w : World) : Dialog → List QString → Dialog
  | d, [] => d
  | d, url :: rest =>
    let name_list := split '/' url
    let name := replace (name_list.getLastD []) ".tgz".toList []
    let name := replace name ".tar.bz2".toList []
    if name ≠ [] ∧ ¬ w.names.contains name then
      let feedUrl :=
        if contains url "feeds".toList then sectionButLast url ++ "/".toList ++ name ++ ".xml".toList
        else url
      let d := { d with urls := mapInsert name feedUrl d.urls }
      htmlLoop w (addItem d name) rest
    else htmlLoop w d rest

/-- Loop over the lines of the plain-text catalog in `downloadDocsetList`;
it stops at the first line with fewer than two fields and, after clearing
`urls`, at the first new entry whose URL does not start with `http`. -/
def textLoop (w : World) : Dialog → List QString → Dialog
  | d, [] => d
  | d, item :: rest =>
    match split ' ' item with
    | name :: url :: _ =>
      if ¬ w.names.contains name then
        if ¬ startsWith url "http".toList then
          emit { d with urls := [] }
            (Effect.warning "No docsets found".toList
              ("Failed retrieving https://raw.github.com/jkozera/zeal/master/docsets.txt: ".toList
                ++ url))
        else
          let d := { d with urls := mapInsert name url d.urls }
          textLoop w (addItem d name) rest
      else textLoop w d rest
    | _ => d

/-- The plain-text branch of `downloadDocsetList` on the body `list`. -/
def textBranch (w : World) (d : Dialog) (list : QString) : Dialog :=
  let d := textLoop w d (split '\n' list)
  if d.urls.length > 0 then d
  else emit d (Effect.warning "No docsets found".toList "No downloadable docsets found.".toList)

/-- The method `ZealSettingsDialog::downloadDocsetList` with `reply` at address `ptr` the
sender. -/
def downloadDocsetList (h : Header) (w : World) (d : Dialog) (ptr : Nat) (reply : Reply)
    (resp : Response) : Dialog :=
  let d := { d with replies := mapErase ptr d.replies }
  if resp.error ≠ NetworkError.NoError then
    let d := endTasks h d 1
    if reply.url.host = "raw.github.com".toList then
      { d with downloadedDocsetsList := decide (d.docsetsList.length > 0) }
    else if resp.error ≠ NetworkError.OperationCanceledError then
      emit d (Effect.warning "No docsets found".toList
        ("Failed retrieving list of docsets: ".toList ++ resp.errorString))
    else d
  else
    let d :=
      if reply.url.host = "kapeli.com".toList then htmlLoop w d resp.anchors
      else textBranch w d resp.body
    let d := endTasks h d 1
    if d.replies.isEmpty then
      resetProgress { d with downloadedDocsetsList := decide (d.docsetsList.length > 0) }
    else d

/-! ## Per-package download -/

/-- A handler connected by `extractDocset` that runs later, with the values its
closure captured: the `finished` handler of the extracting bsdtar process, or
the `finished` handler of the watcher of the unzip worker. -/
inductive Pending
  | tar (dataDir : Path) (outDir : QString) (path : List QString)
      (metadata : ZealDocsetMetadata) (listItem : Option Nat)
  | zip (files : List Path) (dataDir : Path) (listItem : Option Nat)
deriving DecidableEq, Repr

/-- A default-constructed `ZealDocsetMetadata`. -/
def ZealDocsetMetadata.empty : ZealDocsetMetadata :=
  { version := [], feedUrl := [], urls := [] }

/-- The `QMessageBox::critical` shown when the docsets directory is missing. -/
def directoryNotFound (w : World) : Effect :=
  Effect.critical "No docsets directory found".toList
    ("'".toList ++ w.docsetsDir ++ "' directory not found".toList)

/-- A request as `extractDocset` issues it: for `url`, carrying the item id in
its `listItem` property, reporting progress, finishing in `extractDocset`. -/
def followUp (url : QUrl) (itemId : Option Int) : Reply :=
  { url := url, listItem := itemId, oldMetadata := none, metadata := none,
    progressConnected := true, finished := Slot.extractDocset }

/-- The redirect branch on the `Location` URL `url`: an empty host and an
empty scheme are taken from the URL of the finished request. -/
def resolveRedirect (url request : QUrl) : QUrl :=
  let url := if url.host = [] then { url with host := request.host } else url
  if url.scheme = [] then { url with scheme := request.scheme } else url

/-- The end of `extractDocset`: the progress is reset once no reply is live. -/
def finish (d : Dialog) : Dialog :=
  if d.replies.isEmpty then resetProgress d else d

/-- The body of `extractDocset` between `replies.take(reply)` and the final
test of `replies`; `remainingRetries` is the value taken. -/
def dispatch (h : Header) (w : World) (d : Dialog) (remainingRetries : Int) (reply : Reply)
    (resp : Response) : Option (Dialog × Option Pending) :=
  let itemId := reply.listItem
  let listItem := itemAt d itemId
  if resp.status = 302 then
    let url := resolveRedirect (w.toUrl resp.location) reply.url
    let r := naGet d (followUp url itemId)
    some (insertReply r.1 r.2 1, none)
  else if endsWith reply.url.path "xml".toList then
    let d := endTasks h d 1
    let metadata := resp.feed
    if metadata.urls.length = 0 then
      some (emit d (Effect.critical "Zeal".toList "Could not read docset feed!".toList), none)
    else
      let oldMetadata := reply.oldMetadata.getD ZealDocsetMetadata.empty
      if oldMetadata.version ≠ metadata.version then
        let metadata := { metadata with feedUrl := w.urlString reply.url }
        match metadata.urls with
        | [] => none
        | mirror :: _ =>
          let r := naGet d { followUp (w.toUrl mirror) itemId with metadata := some metadata }
          let d := startTasks h r.1 1
          some (insertReply d r.2 (remainingRetries - 1), none)
      else some (d, none)
  else if endsWith reply.url.path "tgz".toList ∨ endsWith reply.url.path "tar.bz2".toList then
    if ¬ w.dataDirExists then
      some (endTasks h (emit d (directoryNotFound w)) 1, none)
    else
      let bz2 := endsWith reply.url.path "tar.bz2".toList
      let d := emit d
        (Effect.tarList [if bz2 then "-jqtf".toList else "-zqtf".toList, "*docset".toList])
      let d :=
        if ¬ resp.tarStarted then
          endTasks h (emit d (Effect.critical "bsdtar executable not found".toList
            ("'bsdtar' executable not found. It is required to allow extracting docsets. "
              ++ "Please install it if you want to extract docsets from within Zeal.").toList)) 1
        else d
      let outDir := (split '/' resp.tarLine).headD []
      let metadata := reply.metadata.getD ZealDocsetMetadata.empty
      let path := split '/' reply.url.path
      let d := emit d (Effect.tarExtract [if bz2 then "-jxf".toList else "-zxf".toList])
      some (d, some (Pending.tar w.dataDir outDir path metadata listItem))
  else
    if resp.zipOpens then
      if ¬ w.dataDirExists then
        some (endTasks h (emit d (directoryNotFound w)) 1, none)
      else
        some (emit d (Effect.extractDir w.dataDir),
          some (Pending.zip resp.files w.dataDir listItem))
    else if remainingRetries > 0 then
      match split '?' resp.href with
      | path :: query :: _ =>
        let url := { reply.url with path := path, query := query }
        let r := naGet d (followUp url itemId)
        some (insertReply r.1 r.2 (remainingRetries - 1), none)
      | _ => none
    else
      some (endTasks h (emit d
        (Effect.warning "Error".toList "Download failed: invalid ZIP file.".toList)) 1, none)

/-- The method `ZealSettingsDialog::extractDocset` with `reply` at address `ptr` the
sender.  The result is `none` where the code indexes a list out of its range;
otherwise it is the new state and the handler left connected, if any. -/
def extractDocset (h : Header) (w : World) (d : Dialog) (ptr : Nat) (reply : Reply)
    (resp : Response) : Option (Dialog × Option Pending) :=
  let remainingRetries : Int := (mapLookup ptr d.replies).getD 0
  let d := { d with replies := mapErase ptr d.replies }
  (dispatch h w d remainingRetries reply resp).map (fun r => (finish r.1, r.2))

/-- Marks `listItem` done when `found` holds, as the loops over the items in
the two `finished` handlers do; `none` when the pointer is null there. -/
def markDone (d : Dialog) (found : Bool) (listItem : Option Nat) : Option Dialog :=
  if found then listItem.map (setDone d) else some d

/-- The name the tar handler installs under: the last segment of the URL path
with `.tgz` and `.tar.bz2` replaced by `.docset`. -/
def tarDocsetName (path : List QString) : QString :=
  replace (replace (path.getLastD []) ".tgz".toList ".docset".toList)
    ".tar.bz2".toList ".docset".toList

/-- The test of the loop over the items in the tar handler: some item's text
followed by `.docset` is the docset name. -/
def tarFound (d : Dialog) (docsetName : QString) : Bool :=
  d.docsetsList.any (fun item => item.text ++ ".docset".toList = docsetName)

/-- The test of the loop over the items in the unzip handler: some item's
text, as it is or followed by `.docset`, is the name of the root directory. -/
def zipFound (d : Dialog) (dirName : QString) : Bool :=
  d.docsetsList.any
    (fun item => item.text = dirName ∨ item.text ++ ".docset".toList = dirName)

/-- The `finished` handler of the extracting bsdtar process. -/
def tarFinished (h : Header) (d : Dialog) (dataDir : Path) (outDir : QString)
    (path : List QString) (metadata : ZealDocsetMetadata) (listItem : Option Nat) :
    Option Dialog :=
  let docsetName := tarDocsetName path
  let d := if outDir ≠ docsetName then emit d (Effect.rename dataDir outDir docsetName) else d
  let d := emit d (Effect.writeMetadata (dataDir ++ [docsetName] ++ ["meta.json".toList]) metadata)
  let d := emit d (Effect.addDocset (dataDir ++ [docsetName]))
  (markDone d (tarFound d docsetName) listItem).map (fun d => endTasks h d 1)

/-- The Qt call `QDir::cdUp`: the parent directory when it exists, the same directory
otherwise; the root is its own parent. -/
def cdUp (w : World) (dir : Path) : Path :=
  if w.dirExists dir.dropLast then dir.dropLast else dir

/-- The `while` loop of the unzip handler, run for at most `fuel` tests of its
condition: it ends with `root` once `next` is the docsets directory. -/
def rootLoop (w : World) (dataDir : Path) : Nat → Path → Path → Option Path
  | 0, _, _ => none
  | fuel + 1, root, next =>
    if next ≠ dataDir then rootLoop w dataDir fuel next (cdUp w next) else some root

/-- Root inference of the unzip handler from the first extracted file. -/
def zipRoot (w : World) (dataDir : Path) (fuel : Nat) (files : List Path) : Option Path :=
  match files with
  | [] => none
  | file :: _ => rootLoop w dataDir fuel file (cdUp w file)

/-- The `finished` handler of the watcher of the unzip worker; `none` when the
list of extracted files is empty, when the null item pointer is dereferenced
or when the loop is still running after `fuel` tests. -/
def zipFinished (h : Header) (w : World) (fuel : Nat) (d : Dialog) (files : List Path)
    (dataDir : Path) (listItem : Option Nat) : Option Dialog :=
  match zipRoot w dataDir fuel files with
  | none => none
  | some root =>
    let d := emit d (Effect.addDocset root)
    (markDone d (zipFound d (root.getLastD [])) listItem).map (fun d => endTasks h d 1)

/-- Runs a pending handler. -/
def runPending (h : Header) (w : World) (fuel : Nat) (d : Dialog) : Pending → Option Dialog
  | Pending.tar dataDir outDir path metadata listItem =>
    tarFinished h d dataDir outDir path metadata listItem
  | Pending.zip files dataDir listItem => zipFinished h w fuel d files dataDir listItem

/-! ## Buttons -/

/-- The method `ZealSettingsDialog::stopDownloads`: hides the progress of the item of
every live reply and aborts the reply; `none` when an item pointer is null. -/
def stopDownloads (d : Dialog) : Option Dialog :=
  d.replies.foldlM
    (fun d entry =>
      let itemId := ((mapLookup entry.1 d.objects).map (fun r => r.listItem)).getD none
      (itemAt d itemId).map (fun item =>
        emit { d with
          docsetsList := d.docsetsList.map
            (fun i => if i.ptr = item then { i with progressVisible := false } else i) }
          (Effect.abort entry.1)))
    d

/-- The call `urls[text]` on the non-const map: a missing key is inserted with an empty
string. -/
def touchUrl (d : Dialog) (text : QString) : Dialog :=
  if (mapLookup text d.urls).isNone then { d with urls := mapInsert text [] d.urls } else d

/-- Loop over the rows of `ui->docsetsList` in
`on_downloadDocsetButton_clicked`, from row `i` on. -/
def installLoop (h : Header) (w : World) : Dialog → Nat → List QListWidgetItem → Dialog
  | d, _, [] => d
  | d, i, tmp :: rest =>
    if tmp.checked then
      let url := w.toUrl ((mapLookup tmp.text d.urls).getD [])
      let r := naGet (touchUrl d tmp.text)
        { url := url, listItem := some (i : Int), oldMetadata := none, metadata := none,
          progressConnected :=
            endsWith url.path ".tgz".toList || endsWith url.path ".tar.bz2".toList,
          finished := Slot.extractDocset }
      let d := insertReply r.1 r.2 1
      let d := { d with
        docsetsList := d.docsetsList.map
          (fun item => if item.ptr = tmp.ptr then { item with progressVisible := true } else item) }
      installLoop h w (startTasks h d 1) (i + 1) rest
    else installLoop h w d (i + 1) rest

/-- The method `ZealSettingsDialog::on_downloadDocsetButton_clicked`. -/
def on_downloadDocsetButton_clicked (h : Header) (w : World) (d : Dialog) : Option Dialog :=
  if d.replies.length > 0 then stopDownloads d
  else some (installLoop h w d 0 d.docsetsList)

/-- The method `ZealSettingsDialog::updateDocsets`, over the names of the registry. -/
def updateLoop (h : Header) (w : World) : Dialog → List QString → Dialog
  | d, [] => d
  | d, name :: rest =>
    let metadata := w.meta name
    if metadata.feedUrl ≠ [] then
      let d := startTasks h d 1
      let (d, reply) := naGet d
        { url := w.toUrl metadata.feedUrl, listItem := none, oldMetadata := some metadata,
          metadata := none, progressConnected := true, finished := Slot.extractDocset }
      updateLoop h w (insertReply d reply 0) rest
    else updateLoop h w d rest

/-- The method `ZealSettingsDialog::updateDocsets` (the slot of the update button). -/
def updateDocsets (h : Header) (w : World) (d : Dialog) : Dialog :=
  updateLoop h w d w.names

/-- The method `ZealSettingsDialog::on_downloadButton_clicked`. -/
def on_downloadButton_clicked (h : Header) (d : Dialog) : Dialog :=
  let d := startTasks h { d with downloadedDocsetsList := false } 2
  let (d, reply) := naGet d
    { url := { scheme := "https".toList, host := "raw.github.com".toList,
               path := "/jkozera/zeal/master/docsets.txt".toList, query := [] },
      listItem := none, oldMetadata := none, metadata := none, progressConnected := false,
      finished := Slot.downloadDocsetList }
  let (d, reply2) := naGet d
    { url := { scheme := "http".toList, host := "kapeli.com".toList,
               path := "/docset_links".toList, query := [] },
      listItem := none, oldMetadata := none, metadata := none, progressConnected := false,
      finished := Slot.downloadDocsetList }
  insertReply (insertReply d reply 0) reply2 0

/-! ## Inputs of the statements -/

/-- The `recv` of the last callback of a sequence, 0 for the empty one. -/
def lastCallback (cbs : List (Nat × Nat)) : Nat :=
  (cbs.getLast?.map (fun cb => cb.1)).getD 0

/-- A plain-text catalog: every entry `(name, url)` on a line `name url` of its
own, each line ended by a newline. -/
def renderCatalog (lines : List (QString × QString)) : QString :=
  (lines.map (fun l => l.1 ++ ' ' :: l.2 ++ ['\n'])).flatten

/-- An entry that a catalog line `name url` can carry: neither field holds a
space or a newline, and the URL starts with `http`. -/
def CatalogEntry (l : QString × QString) : Prop :=
  ' ' ∉ l.1 ∧ '\n' ∉ l.1 ∧ ' ' ∉ l.2 ∧ '\n' ∉ l.2 ∧ startsWith l.2 "http".toList = true

instance (l : QString × QString) : Decidable (CatalogEntry l) := by
  unfold CatalogEntry
  infer_instance

/-- A reading of strings of the shape `scheme://host/path?query` (every part
optional), standing for the `QUrl` constructor in the examples. -/
def parseUrl (s : QString) : QUrl :=
  let front := s.takeWhile (fun c => c ≠ '?')
  let query := (s.dropWhile (fun c => c ≠ '?')).drop 1
  let scheme := if contains front "://".toList then front.takeWhile (fun c => c ≠ ':') else []
  let rest := if contains front "://".toList then (front.dropWhile (fun c => c ≠ ':')).drop 1
    else front
  if "//".toList.isPrefixOf rest then
    { scheme := scheme, host := (rest.drop 2).takeWhile (fun c => c ≠ '/'),
      path := (rest.drop 2).dropWhile (fun c => c ≠ '/'), query := query }
  else { scheme := scheme, host := [], path := rest, query := query }

/-- The inverse of `parseUrl`, standing for `QUrl::toString` in the examples. -/
def printUrl (u : QUrl) : QString :=
  (if u.scheme = [] then [] else u.scheme ++ [':']) ++
  (if u.host = [] then [] else '/' :: '/' :: u.host) ++ u.path ++
  (if u.query = [] then [] else '?' :: u.query)

/-- A world for the examples: an empty registry and an existing docsets
directory `/docsets`. -/
def World.sample : World :=
  { names := [], meta := fun _ => ZealDocsetMetadata.empty, docsetsDir := "/docsets".toList,
    dataDir := ["docsets".toList], dataDirExists := true, dirExists := fun _ => true,
    toUrl := parseUrl, urlString := printUrl }

/-- A finished reply with status 200, no error and an empty body that none of
the libraries can read; the examples override single fields. -/
def Response.ok : Response :=
  { error := NetworkError.NoError, errorString := [], status := 200, location := [],
    body := [], anchors := [], feed := ZealDocsetMetadata.empty, zipOpens := false,
    href := [], tarStarted := true, tarLine := [], files := [] }

/-- The first line of a catalog body, as `list.split("\n")` yields it. -/
def firstLine (body : QString) : QString := (split '\n' body).headD []

/-- The reply object at address `ptr`, as `naManager.get` created it. -/
def replyAt (d : Dialog) (ptr : Nat) : Reply :=
  (mapLookup ptr d.objects).getD
    { url := { scheme := [], host := [], path := [], query := [] }, listItem := none,
      oldMetadata := none, metadata := none, progressConnected := false,
      finished := Slot.extractDocset }

/-- A URL path that `extractDocset` treats as a zip download: it ends neither
in `xml` nor in `tgz` nor in `tar.bz2`. -/
def zipPath (path : QString) : Prop :=
  endsWith path "xml".toList = false ∧ endsWith path "tgz".toList = false ∧
    endsWith path "tar.bz2".toList = false

instance (path : QString) : Decidable (zipPath path) := by
  unfold zipPath
  infer_instance

/-- The message box of the terminal invalid-archive failure. -/
def invalidZip : Effect :=
  Effect.warning "Error".toList "Download failed: invalid ZIP file.".toList

/-- A dialog listing the single, checked item `A` at address 0, whose source
is `source`. -/
def Dialog.withChecked (source : QString) : Dialog :=
  { Dialog.init with
    urls := [("A".toList, source)]
    docsetsList := [{ ptr := 0, text := "A".toList, checked := true, done := false,
                      progressVisible := false }]
    nextPtr := 1 }

/-- The install button pressed on `d`, then the reply at address `p1`
finishing with `r1`, then the reply at address `p2` finishing with `r2`. -/
def installThenTwo (h : Header) (w : World) (d : Dialog) (p1 : Nat) (r1 : Response)
    (p2 : Nat) (r2 : Response) : Option (Dialog × Option Pending) :=
  (on_downloadDocsetButton_clicked h w d).bind (fun d1 =>
    (extractDocset h w d1 p1 (replyAt d1 p1) r1).bind (fun s =>
      extractDocset h w s.1 p2 (replyAt s.1 p2) r2))

/-- The dialog of `Dialog.withChecked` after the install button was pressed:
one reply, at address 1, is live. -/
def Dialog.installing (source : QString) : Dialog :=
  installLoop ⟨32, 32⟩ World.sample (Dialog.withChecked source) 0
    (Dialog.withChecked source).docsetsList

/-- A reply finished by `abort()`: the error is `OperationCanceledError`, there
is no status code and the body is empty, so no library can read anything. -/
def Response.aborted : Response :=
  { Response.ok with error := NetworkError.OperationCanceledError,
                     errorString := "Operation canceled".toList, status := 0 }

/-- The reply at address `ptr` finishing with `resp`, then the handler that
`extractDocset` leaves connected running. -/
def finishReply (h : Header) (w : World) (fuel : Nat) (d : Dialog) (ptr : Nat)
    (resp : Response) : Option Dialog :=
  (extractDocset h w d ptr (replyAt d ptr) resp).bind (fun s =>
    match s.2 with
    | none => some s.1
    | some handler => runPending h w fuel s.1 handler)

/-- The install button pressed again on `d` while replies are live (which
stops the downloads), then the reply at address `ptr` finishing with `resp` and
the handler it leaves connected running. -/
def stopThenFinish (h : Header) (w : World) (fuel : Nat) (d : Dialog) (ptr : Nat)
    (resp : Response) : Option Dialog :=
  (on_downloadDocsetButton_clicked h w d).bind (fun d1 => finishReply h w fuel d1 ptr resp)

/-- A world for the examples with one installed docset `A` of version `1`,
whose feed is `http://f/A.xml`. -/
def World.installed : World :=
  { World.sample with
    names := ["A".toList]
    meta := fun _ => { version := "1".toList, feedUrl := "http://f/A.xml".toList,
                       urls := ["http://m/A.tgz".toList] } }

/-- The effects by which a handler marks the job done: the `setData` on the
item, when the loop over the items found the docset. -/
def doneEffects (found : Bool) (listItem : Option Nat) : List Effect :=
  if found then (listItem.map Effect.setDone).toList else []

/-- The name the HTML branch derives from the last segment of an anchor URL:
every `.tgz` and then every `.tar.bz2` in it is removed. -/
def stripArchive (file : QString) : QString :=
  replace (replace file ".tgz".toList []) ".tar.bz2".toList []

/-- The source URL the HTML branch stores for the anchor `url` whose name is
`name`: the feed URL next to the archive when `url` contains `feeds`
anywhere, `url` itself otherwise. -/
def storedUrl (url name : QString) : QString :=
  if contains url "feeds".toList then sectionButLast url ++ "/".toList ++ name ++ ".xml".toList
  else url

/-- A dialog in the middle of a batch: one task running, one sample recorded
for the reply at address 7, and the listed item `A` already flagged done. -/
def Dialog.busy : Dialog :=
  { Dialog.init with
    tasksRunning := 1
    totalDownload := 50000
    currentDownload := 20000
    progress := [(7, (20000, 50000))]
    docsetsList := [{ ptr := 0, text := "A".toList, checked := true, done := true,
                      progressVisible := true }]
    nextPtr := 8 }

/-! ## Jobs -/

/-- Where a download job stands: a request of it is in flight (the reply is at
`ptr`), or its archive is being extracted and `handler` is connected to the end
of the extraction, or it has resolved (installed or failed). -/
inductive JobState
  | waiting (ptr : Nat)
  | extracting (handler : Pending)
  | resolved
deriving DecidableEq, Repr

/-- One event of a job.  For a waiting job the event is the end of its reply
with `resp`: `extractDocset` runs, and the job goes on waiting for the request
that `extractDocset` issued (the reply at the address that was free before),
or extracts when a handler was connected, or has resolved.  For an extracting
job the event is the end of the extraction, where the handler runs and `resp`
is not looked at. -/
def jobStep (h : Header) (w : World) (fuel : Nat) (d : Dialog) (job : JobState)
    (resp : Response) : Option (Dialog × JobState) :=
  match job with
  | JobState.waiting ptr =>
    (extractDocset h w d ptr (replyAt d ptr) resp).map (fun s =>
      (s.1,
        match s.2 with
        | some handler => JobState.extracting handler
        | none => if d.nextPtr < s.1.nextPtr then JobState.waiting d.nextPtr
          else JobState.resolved))
  | JobState.extracting handler =>
    (runPending h w fuel d handler).map (fun d1 => (d1, JobState.resolved))
  | JobState.resolved => some (d, JobState.resolved)

/-- The events `resps` of one job, one after the other. -/
def runJob (h : Header) (w : World) (fuel : Nat) :
    Dialog → JobState → List Response → Option (Dialog × JobState)
  | d, job, [] => some (d, job)
  | d, job, resp :: rest =>
    (jobStep h w fuel d job resp).bind (fun s => runJob h w fuel s.1 s.2 rest)

/-- A response that is no zip but an interstitial page whose download link is
`/uc?confirm=1`. -/
def Response.interstitial : Response :=
  { Response.ok with href := "/uc?confirm=1".toList }

/-- A response with status 302 that redirects to `http://drive/uc?id=1`. -/
def Response.redirect : Response :=
  { Response.ok with status := 302, location := "http://drive/uc?id=1".toList }

/-- The response sequence interstitial page, redirect, repeated `n` times. -/
def alternating : Nat → List Response
  | 0 => []
  | n + 1 => Response.interstitial :: Response.redirect :: alternating n

/-- Tells the requests for the download link of the interstitial page of
`Response.interstitial`, which are the re-requests of the retry branch. -/
def isBypass : Effect → Bool
  | Effect.get _ reply => reply.url.query = "confirm=1".toList
  | _ => false

/-- The number of re-requests for the download link of the interstitial page
that the dialog has issued. -/
def bypassCount (d : Dialog) : Nat := (d.log.filter isBypass).length

/-- The reply at `ptr` is the newest object of the dialog, is live with one
retry left and is for a zip URL; no object lies at a free address. -/
def Armed (d : Dialog) (ptr : Nat) : Prop :=
  d.nextPtr = ptr + 1 ∧ mapLookup ptr d.replies = some 1 ∧
    zipPath (replyAt d ptr).url.path ∧ ∀ e ∈ d.objects, e.1 < d.nextPtr

/-- A response that is a valid zip holding `A.docset/Contents/x`. -/
def Response.zip : Response :=
  { Response.ok with
    zipOpens := true
    files := [["docsets".toList, "A.docset".toList, "Contents".toList, "x".toList]] }

/-! ## Lemmas on machine integers and maps -/

theorem wrapS_eq_self {w : Nat} (hw : 1 ≤ w) {x : Int}
    (h1 : -(2 : Int) ^ (w - 1) ≤ x) (h2 : x < 2 ^ (w - 1)) : wrapS w x = x := by
  unfold wrapS
  have hp : (2 : Int) ^ w = 2 * 2 ^ (w - 1) := by
    obtain ⟨k, rfl⟩ : ∃ k, w = k + 1 := ⟨w - 1, by omega⟩
    simp [pow_succ]
    ring
  rw [Int.emod_eq_of_lt (by linarith) (by linarith)]
  ring

theorem wrapS_add_mul (w : Nat) (x k : Int) : wrapS w (x + k * 2 ^ w) = wrapS w x := by
  unfold wrapS
  have e : x + k * 2 ^ w + 2 ^ (w - 1) = x + 2 ^ (w - 1) + k * 2 ^ w := by ring
  rw [e, Int.add_mul_emod_self]

theorem pow_le_pow_two {a b : Nat} (hab : a ≤ b) : (2 : Int) ^ a ≤ 2 ^ b :=
  pow_le_pow_right₀ (by norm_num) hab

theorem mapLookup_mapInsert_self {α β : Type} [DecidableEq α] (k : α) (v : β)
    (m : List (α × β)) : mapLookup k (mapInsert k v m) = some v := by
  induction m with
  | nil => simp [mapInsert, mapLookup]
  | cons e m ih =>
    obtain ⟨k', v'⟩ := e
    by_cases hk : k' = k
    · simp [mapInsert, mapLookup, hk]
    · simp [mapInsert, mapLookup, hk, ih]

/-- One recorded sample: when the counter and the stored sample agree on `v`,
a callback above the threshold moves the counter to `recv`. -/
theorem counter_step (bits : Nat) (h32 : 32 ≤ bits) (h64 : bits ≤ 64) (v recv : Nat)
    (hv : v < 2 ^ 31) (hr : recv < 2 ^ 31) :
    wrapS bits ((v : Int) + ((recv : Int) - (v : Int)) % 2 ^ 64) = (recv : Int) := by
  have hv' : (v : Int) < 2 ^ 31 := by exact_mod_cast hv
  have hr' : (recv : Int) < 2 ^ 31 := by exact_mod_cast hr
  have hv0 : (0 : Int) ≤ v := Int.natCast_nonneg v
  have hr0 : (0 : Int) ≤ recv := Int.natCast_nonneg recv
  have hp : (2 : Int) ^ 31 ≤ 2 ^ (bits - 1) := pow_le_pow_two (by omega)
  have hself : wrapS bits (recv : Int) = recv :=
    wrapS_eq_self (by omega) (by linarith [pow_pos (by norm_num : (0 : Int) < 2) (bits - 1)])
      (by linarith)
  by_cases hle : (v : Int) ≤ recv
  · rw [Int.emod_eq_of_lt (by linarith) (by norm_num at hr' ⊢; linarith)]
    rw [show (v : Int) + ((recv : Int) - v) = recv by ring]
    exact hself
  · have hlt : (recv : Int) < v := by linarith
    have hm : ((recv : Int) - v) % 2 ^ 64 = (recv : Int) - v + 2 ^ 64 := by
      rw [← Int.add_mul_emod_self (a := (recv : Int) - v) (b := 1) (c := 2 ^ 64)]
      rw [one_mul]
      exact Int.emod_eq_of_lt (by norm_num at hv' ⊢; linarith) (by linarith)
    rw [hm]
    have hsplit : (2 : Int) ^ 64 = 2 ^ (64 - bits) * 2 ^ bits := by
      rw [← pow_add]
      congr 1
      omega
    rw [show (v : Int) + ((recv : Int) - v + 2 ^ 64) = recv + 2 ^ (64 - bits) * 2 ^ bits by
      rw [← hsplit]; ring]
    rw [wrapS_add_mul]
    exact hself

/-! ## Progress aggregation: the counter follows the last recorded sample -/

theorem runProgress_counter (h : Header) (h32 : 32 ≤ h.downloadBits)
    (h64 : h.downloadBits ≤ 64) (r : Nat) :
    ∀ (cbs : List (Nat × Nat)) (d : Dialog) (v : Nat), v < 2 ^ 31 →
      d.currentDownload = v → ((mapLookup r d.progress).getD (0, 0)).1 = v →
      (∀ cb ∈ cbs, cb.1 < 2 ^ 31) →
      (runProgress h d r cbs).currentDownload = lastRecorded v cbs := by
  intro cbs
  induction cbs with
  | nil => intro d v _ hc _ _; simpa [runProgress, lastRecorded] using hc
  | cons cb cbs ih =>
    intro d v hv hc hs hb
    have hcb : cb.1 < 2 ^ 31 := hb cb (List.mem_cons_self _ _)
    have hrest : ∀ c ∈ cbs, c.1 < 2 ^ 31 := fun c hc => hb c (List.mem_cons_of_mem _ hc)
    have hrun : runProgress h d r (cb :: cbs)
        = runProgress h (on_downloadProgress h d r cb.1 cb.2) r cbs := rfl
    have hlast : lastRecorded v (cb :: cbs)
        = lastRecorded (if cb.1 > 10240 then cb.1 else v) cbs := rfl
    rw [hrun, hlast]
    by_cases hthr : cb.1 > 10240
    · rw [if_pos hthr]
      apply ih _ _ hcb _ _ hrest
      · simp only [on_downloadProgress, if_pos hthr, hs, hc]
        exact counter_step h.downloadBits h32 h64 v cb.1 hv hcb
      · simp only [on_downloadProgress, if_pos hthr, mapLookup_mapInsert_self, Option.getD_some]
        exact wrapS_eq_self (by norm_num)
          (by have := Int.natCast_nonneg cb.1; norm_num; linarith)
          (by norm_num; exact_mod_cast hcb)
    · rw [if_neg hthr]
      have hsame : on_downloadProgress h d r cb.1 cb.2 = d := by
        simp only [on_downloadProgress, if_neg hthr]
      rw [hsame]
      exact ih d v hv hc hs hrest

/-- C1, refuted as stated: after the single callback `(recv, total) = (100, 100)`
on a freshly reset aggregator the received-bytes counter is 0, not the 100
bytes of the last callback, because samples of at most 10240 bytes are
ignored. -/
theorem C1_small_sample_not_counted :
    (runProgress ⟨32, 32⟩ (resetProgress Dialog.init) 0 [(100, 100)]).currentDownload = 0 ∧
    (runProgress ⟨32, 32⟩ (resetProgress Dialog.init) 0 [(100, 100)]).currentDownload
      ≠ (lastCallback [(100, 100)] : Int) := by
  decide

/-- C1, amended: for counters of 32 to 64 bits and callbacks of one reply whose
`recv` stays below 2^31, starting from a freshly reset aggregator, the
received-bytes counter (the sum of the deltas added to it) equals the `recv` of
the last callback above the 10240-byte threshold, 0 when there is none; and
repeating a callback adds zero. -/
theorem C1_progress_sum (h : Header) (h32 : 32 ≤ h.downloadBits) (h64 : h.downloadBits ≤ 64)
    (d : Dialog) (r : Nat) (cbs : List (Nat × Nat)) (hb : ∀ cb ∈ cbs, cb.1 < 2 ^ 31) :
    (runProgress h (resetProgress d) r cbs).currentDownload = lastRecorded 0 cbs ∧
    ∀ cb : Nat × Nat, cb.1 < 2 ^ 31 →
      (runProgress h (resetProgress d) r (cbs ++ [cb, cb])).currentDownload
        = (runProgress h (resetProgress d) r (cbs ++ [cb])).currentDownload := by
  have key : ∀ l : List (Nat × Nat), (∀ cb ∈ l, cb.1 < 2 ^ 31) →
      (runProgress h (resetProgress d) r l).currentDownload = lastRecorded 0 l := by
    intro l hl
    exact runProgress_counter h h32 h64 r l (resetProgress d) 0 (by norm_num)
      (by simp [resetProgress]) (by simp [resetProgress, mapLookup]) hl
  refine ⟨key cbs hb, ?_⟩
  intro cb hcb
  have h1 : ∀ c ∈ cbs ++ [cb, cb], c.1 < 2 ^ 31 := by
    intro c hc
    simp only [List.mem_append, List.mem_cons, List.mem_singleton, List.not_mem_nil,
      or_false, or_self] at hc
    rcases hc with hc | hc
    · exact hb c hc
    · rw [hc]; exact hcb
  have h2 : ∀ c ∈ cbs ++ [cb], c.1 < 2 ^ 31 := by
    intro c hc
    simp only [List.mem_append, List.mem_singleton] at hc
    rcases hc with hc | hc
    · exact hb c hc
    · rw [hc]; exact hcb
  rw [key _ h1, key _ h2]
  simp only [lastRecorded, List.foldl_append, List.foldl_cons, List.foldl_nil]
  split_ifs <;> rfl

/-- C1, amended, at a concrete run: 20000 bytes reported twice, a small sample,
then 30000 bytes. -/
theorem C1_progress_sum_witness :
    (∀ cb ∈ [((20000 : Nat), (50000 : Nat)), (20000, 50000), (100, 50000), (30000, 50000)],
      cb.1 < 2 ^ 31) ∧
    (runProgress ⟨32, 32⟩ (resetProgress Dialog.init) 0
      [(20000, 50000), (20000, 50000), (100, 50000), (30000, 50000)]).currentDownload
        = (30000 : Nat) := by
  refine ⟨by decide, ?_⟩
  exact (C1_progress_sum ⟨32, 32⟩ (by decide) (by decide) Dialog.init 0
    [(20000, 50000), (20000, 50000), (100, 50000), (30000, 50000)] (by decide)).1

/-! ## Plain-text catalog -/

theorem split_of_not_mem (sep : Char) : ∀ s : QString, sep ∉ s → split sep s = [s]
  | [], _ => rfl
  | c :: cs, hs => by
    have hc : c ≠ sep := fun e => hs (e ▸ List.mem_cons_self _ _)
    have hcs : sep ∉ cs := fun m => hs (List.mem_cons_of_mem _ m)
    simp [split, hc, split_of_not_mem sep cs hcs]

theorem split_append_sep (sep : Char) (t : QString) :
    ∀ s : QString, sep ∉ s → split sep (s ++ sep :: t) = s :: split sep t
  | [], _ => by simp [split]
  | c :: cs, hs => by
    have hc : c ≠ sep := fun e => hs (e ▸ List.mem_cons_self _ _)
    have hcs : sep ∉ cs := fun m => hs (List.mem_cons_of_mem _ m)
    simp [split, hc, split_append_sep sep t cs hcs]

theorem split_renderCatalog :
    ∀ lines : List (QString × QString), (∀ l ∈ lines, CatalogEntry l) →
      split '\n' (renderCatalog lines) = lines.map (fun l => l.1 ++ ' ' :: l.2) ++ [[]]
  | [], _ => rfl
  | l :: lines, hl => by
    have hwf := hl l (List.mem_cons_self _ _)
    have hrest : ∀ x ∈ lines, CatalogEntry x := fun x hx => hl x (List.mem_cons_of_mem _ hx)
    have hno : '\n' ∉ l.1 ++ ' ' :: l.2 := by
      simp only [List.mem_append, List.mem_cons, not_or]
      exact ⟨hwf.2.1, by decide, hwf.2.2.2.1⟩
    have e : renderCatalog (l :: lines)
        = (l.1 ++ ' ' :: l.2) ++ '\n' :: renderCatalog lines := by
      simp [renderCatalog]
    rw [e, split_append_sep '\n' _ _ hno, split_renderCatalog lines hrest]
    simp

theorem split_catalog_line (l : QString × QString) (hl : CatalogEntry l) :
    split ' ' (l.1 ++ ' ' :: l.2) = [l.1, l.2] := by
  rw [split_append_sep ' ' _ _ hl.1, split_of_not_mem ' ' _ hl.2.2.1]

theorem textLoop_catalog (w : World) (hreg : w.names = []) :
    ∀ (lines : List (QString × QString)) (d : Dialog), (∀ l ∈ lines, CatalogEntry l) →
      (textLoop w d (lines.map (fun l => l.1 ++ ' ' :: l.2) ++ [[]])).urls
        = lines.foldl (fun m l => mapInsert l.1 l.2 m) d.urls ∧
      (textLoop w d (lines.map (fun l => l.1 ++ ' ' :: l.2) ++ [[]])).log = d.log
  | [], d, _ => by simp [textLoop, split]
  | l :: lines, d, hl => by
    have hwf := hl l (List.mem_cons_self _ _)
    have hrest : ∀ x ∈ lines, CatalogEntry x := fun x hx => hl x (List.mem_cons_of_mem _ hx)
    have ih := textLoop_catalog w hreg lines
      (addItem { d with urls := mapInsert l.1 l.2 d.urls } l.1) hrest
    simp only [List.map_cons, List.cons_append, textLoop, split_catalog_line l hwf, hreg,
      List.contains_nil, hwf.2.2.2.2, List.foldl_cons]
    simpa [addItem] using ih

theorem foldl_mapInsert_fresh :
    ∀ (lines m : List (QString × QString)), ((m ++ lines).map Prod.fst).Nodup →
      lines.foldl (fun m l => mapInsert l.1 l.2 m) m = m ++ lines
  | [], m, _ => by simp
  | l :: lines, m, hnd => by
    have hfresh : ∀ m : List (QString × QString), l.1 ∉ m.map Prod.fst →
        mapInsert l.1 l.2 m = m ++ [l] := by
      intro m
      induction m with
      | nil => intro _; rfl
      | cons e m ihm =>
        intro hne
        simp only [List.map_cons, List.mem_cons, not_or] at hne
        have hk : ¬ e.1 = l.1 := fun h => hne.1 h.symm
        simp [mapInsert, hk, ihm hne.2]
    have hl : l.1 ∉ m.map Prod.fst := by
      simp only [List.map_append, List.map_cons] at hnd
      have := (List.nodup_append.1 hnd).2.2
      intro hm
      exact this hm (List.mem_cons_self _ _)
    rw [List.foldl_cons, hfresh m hl]
    have hnd' : (((m ++ [l]) ++ lines).map Prod.fst).Nodup := by
      simpa using hnd
    rw [foldl_mapInsert_fresh lines (m ++ [l]) hnd']
    simp

/-- C2: on a plain-text catalog of lines `name url` whose URLs start with
`http`, with an empty registry, the plain-text branch of `downloadDocsetList`
stores every line in order (a later line of the same name replacing an earlier
one) on top of the entries already there; started from no entries and with
distinct names, `urls` is exactly the list of the lines. -/
theorem C2_text_catalog (w : World) (d : Dialog) (lines : List (QString × QString))
    (hreg : w.names = []) (hwf : ∀ l ∈ lines, CatalogEntry l) :
    (textBranch w d (renderCatalog lines)).urls
      = lines.foldl (fun m l => mapInsert l.1 l.2 m) d.urls ∧
    (d.urls = [] → (lines.map Prod.fst).Nodup →
      (textBranch w d (renderCatalog lines)).urls = lines) := by
  have hloop := (textLoop_catalog w hreg lines d hwf).1
  have hurls : (textBranch w d (renderCatalog lines)).urls
      = lines.foldl (fun m l => mapInsert l.1 l.2 m) d.urls := by
    unfold textBranch
    rw [split_renderCatalog lines hwf]
    dsimp only
    split_ifs
    · exact hloop
    · simpa [emit] using hloop
  refine ⟨hurls, ?_⟩
  intro hempty hnd
  rw [hurls, hempty, foldl_mapInsert_fresh lines [] (by simpa using hnd)]
  simp

/-- C2 on the catalog of the spec: `foo http://x/foo.tgz` and
`bar http://x/bar.tgz`. -/
theorem C2_text_catalog_witness :
    World.sample.names = [] ∧
    (∀ l ∈ [("foo".toList, "http://x/foo.tgz".toList), ("bar".toList, "http://x/bar.tgz".toList)],
      CatalogEntry l) ∧
    renderCatalog [("foo".toList, "http://x/foo.tgz".toList),
      ("bar".toList, "http://x/bar.tgz".toList)]
      = "foo http://x/foo.tgz\nbar http://x/bar.tgz\n".toList ∧
    (textBranch World.sample Dialog.init "foo http://x/foo.tgz\nbar http://x/bar.tgz\n".toList).urls
      = [("foo".toList, "http://x/foo.tgz".toList), ("bar".toList, "http://x/bar.tgz".toList)] :=
  ⟨rfl, by decide, by decide,
    (C2_text_catalog World.sample Dialog.init
      [("foo".toList, "http://x/foo.tgz".toList), ("bar".toList, "http://x/bar.tgz".toList)]
      rfl (by decide)).2 rfl (by decide)⟩

theorem split_ne_nil (sep : Char) : ∀ s : QString, split sep s ≠ []
  | [] => by simp [split]
  | c :: cs => by
    unfold split
    split_ifs
    · simp
    · cases split sep cs <;> simp

/-- C3, refuted as stated: with one entry already contributed by the other
source, the body `bar` followed by a newline surfaces no message at all. -/
theorem C3_no_error_when_other_source_has_entries :
    (textBranch World.sample
      { Dialog.init with urls := [("X".toList, "http://kapeli.com/X.tgz".toList)] }
      "bar\n".toList).log = [] := by
  decide

/-- C3, amended: when the first line of the plain-text body has fewer than two
space-separated fields, the plain-text branch contributes nothing (`urls` and
the list of items stay as they were), and the warning "No downloadable docsets
found." is surfaced exactly when `urls` holds no entry, that is when the other
source has contributed none. -/
theorem C3_short_first_line (w : World) (d : Dialog) (body : QString)
    (hshort : (split ' ' (firstLine body)).length < 2) :
    (textBranch w d body).urls = d.urls ∧
    (textBranch w d body).docsetsList = d.docsetsList ∧
    (textBranch w d body).log =
      if d.urls.length > 0 then d.log
      else d.log ++ [Effect.warning "No docsets found".toList
        "No downloadable docsets found.".toList] := by
  obtain ⟨first, rest, hsplit⟩ : ∃ first rest, split '\n' body = first :: rest := by
    cases hs : split '\n' body with
    | nil => exact absurd hs (split_ne_nil _ _)
    | cons a l => exact ⟨a, l, rfl⟩
  have hfirst : firstLine body = first := by simp [firstLine, hsplit]
  rw [hfirst] at hshort
  have hloop : textLoop w d (first :: rest) = d := by
    unfold textLoop
    split
    · rename_i heq
      rw [heq] at hshort
      simp only [List.length_cons] at hshort
      omega
    · rfl
  unfold textBranch
  rw [hsplit, hloop]
  dsimp only
  split_ifs <;> simp [emit]

/-- C3, amended, on the body of the spec: `bar` and a newline, with nothing
from the other source. -/
theorem C3_short_first_line_witness :
    (split ' ' (firstLine "bar\n".toList)).length < 2 ∧
    (textBranch World.sample Dialog.init "bar\n".toList).urls = [] ∧
    (textBranch World.sample Dialog.init "bar\n".toList).log =
      [Effect.warning "No docsets found".toList "No downloadable docsets found.".toList] :=
  ⟨by decide,
    (C3_short_first_line World.sample Dialog.init "bar\n".toList (by decide)).1,
    (C3_short_first_line World.sample Dialog.init "bar\n".toList (by decide)).2.2⟩

/-- C4, the code at the failing input: the catalog button is pressed, the HTML
source answers with one anchor and contributes the entry `X`, then the
plain-text source answers with a line whose URL starts with `ftp`.  The entry
of the HTML source is gone from `urls`, while its item is still listed. -/
theorem C4_clear_drops_html_entries :
    (downloadDocsetList ⟨32, 32⟩ World.sample (on_downloadButton_clicked ⟨32, 32⟩ Dialog.init) 1
      (replyAt (on_downloadButton_clicked ⟨32, 32⟩ Dialog.init) 1)
      { Response.ok with anchors := ["http://kapeli.com/docsets/X.tgz".toList] }).urls
      = [("X".toList, "http://kapeli.com/docsets/X.tgz".toList)] ∧
    (downloadDocsetList ⟨32, 32⟩ World.sample
      (downloadDocsetList ⟨32, 32⟩ World.sample (on_downloadButton_clicked ⟨32, 32⟩ Dialog.init) 1
        (replyAt (on_downloadButton_clicked ⟨32, 32⟩ Dialog.init) 1)
        { Response.ok with anchors := ["http://kapeli.com/docsets/X.tgz".toList] })
      0 (replyAt (on_downloadButton_clicked ⟨32, 32⟩ Dialog.init) 0)
      { Response.ok with body := "foo ftp://x/foo.zip\n".toList }).urls = [] ∧
    (downloadDocsetList ⟨32, 32⟩ World.sample
      (downloadDocsetList ⟨32, 32⟩ World.sample (on_downloadButton_clicked ⟨32, 32⟩ Dialog.init) 1
        (replyAt (on_downloadButton_clicked ⟨32, 32⟩ Dialog.init) 1)
        { Response.ok with anchors := ["http://kapeli.com/docsets/X.tgz".toList] })
      0 (replyAt (on_downloadButton_clicked ⟨32, 32⟩ Dialog.init) 0)
      { Response.ok with body := "foo ftp://x/foo.zip\n".toList }).docsetsList.map
        (fun item => item.text) = ["X".toList] := by
  decide

/-! ## Redirects -/

theorem finish_log (d : Dialog) : (finish d).log = d.log := by
  unfold finish
  split_ifs <;> rfl

theorem finish_replies (d : Dialog) : (finish d).replies = d.replies := by
  unfold finish
  split_ifs <;> rfl

theorem finish_tasksRunning (d : Dialog) : (finish d).tasksRunning = d.tasksRunning := by
  unfold finish
  split_ifs <;> rfl

theorem resolveRedirect_fields (url request : QUrl) :
    (resolveRedirect url request).path = url.path ∧
    (resolveRedirect url request).query = url.query ∧
    (resolveRedirect url request).host = (if url.host = [] then request.host else url.host) ∧
    (resolveRedirect url request).scheme
      = (if url.scheme = [] then request.scheme else url.scheme) := by
  unfold resolveRedirect
  by_cases hh : url.host = [] <;> by_cases hs : url.scheme = [] <;> simp [hh, hs]

theorem extractDocset_redirect (h : Header) (w : World) (d : Dialog) (ptr : Nat) (reply : Reply)
    (resp : Response) (h302 : resp.status = 302) :
    extractDocset h w d ptr reply resp
      = some (finish (insertReply
          (naGet { d with replies := mapErase ptr d.replies }
            (followUp (resolveRedirect (w.toUrl resp.location) reply.url) reply.listItem)).1
          d.nextPtr 1), none) := by
  simp [extractDocset, dispatch, h302, naGet]

/-- C5, refuted as stated: a response with the redirect status 301 (and
likewise 307) and `Location: /newpath`, answered to the request for
`http://host/old`, is not followed.  `extractDocset` tests for status 302 only,
reads the body as a zip and, with no retry left, ends in the invalid-ZIP
message without any request. -/
theorem C5_only_302_is_followed :
    (extractDocset ⟨32, 32⟩ World.sample Dialog.init 0
      (followUp (parseUrl "http://host/old".toList) none)
      { Response.ok with status := 301, location := "/newpath".toList }).map
        (fun r => r.1.log) = some [invalidZip] ∧
    (extractDocset ⟨32, 32⟩ World.sample Dialog.init 0
      (followUp (parseUrl "http://host/old".toList) none)
      { Response.ok with status := 307, location := "/newpath".toList }).map
        (fun r => r.1.log) = some [invalidZip] := by
  decide

/-- C5, amended: on a response with status 302, the only status the handler
takes for a redirect, `extractDocset` issues exactly one request, for the
`Location` URL with its path and query kept and with the host and the scheme
of the finished request filled in where the `Location` has none; the new reply
carries the item id and gets one remaining retry. -/
theorem C5_redirect_resolution (h : Header) (w : World) (d : Dialog) (ptr : Nat) (reply : Reply)
    (resp : Response) (h302 : resp.status = 302) :
    ∃ d' url, extractDocset h w d ptr reply resp = some (d', none) ∧
      d'.log = d.log ++ [Effect.get d.nextPtr (followUp url reply.listItem)] ∧
      url.path = (w.toUrl resp.location).path ∧
      url.query = (w.toUrl resp.location).query ∧
      url.host = (if (w.toUrl resp.location).host = [] then reply.url.host
        else (w.toUrl resp.location).host) ∧
      url.scheme = (if (w.toUrl resp.location).scheme = [] then reply.url.scheme
        else (w.toUrl resp.location).scheme) ∧
      mapLookup d.nextPtr d'.replies = some 1 := by
  obtain ⟨hp, hq, hh, hs⟩ := resolveRedirect_fields (w.toUrl resp.location) reply.url
  refine ⟨_, resolveRedirect (w.toUrl resp.location) reply.url,
    extractDocset_redirect h w d ptr reply resp h302, ?_, hp, hq, hh, hs, ?_⟩
  · rw [finish_log]
    rfl
  · rw [finish_replies]
    simp only [insertReply, mapLookup_mapInsert_self]
    rfl

/-- C5, amended, on the redirect of the spec: `Location: /newpath` answered
with status 302 to a request for `http://host/old` leads to a request for
`http://host/newpath`. -/
theorem C5_redirect_resolution_witness :
    ({ Response.ok with status := 302, location := "/newpath".toList } : Response).status = 302 ∧
    (extractDocset ⟨32, 32⟩ World.sample Dialog.init 0
      (followUp (parseUrl "http://host/old".toList) none)
      { Response.ok with status := 302, location := "/newpath".toList }).map
        (fun r => r.1.log)
      = some [Effect.get 0 (followUp (parseUrl "http://host/newpath".toList) none)] := by
  refine ⟨rfl, ?_⟩
  obtain ⟨d', url, hrun, hlog, hp, hq, hh, hs, -⟩ :=
    C5_redirect_resolution ⟨32, 32⟩ World.sample Dialog.init 0
      (followUp (parseUrl "http://host/old".toList) none)
      { Response.ok with status := 302, location := "/newpath".toList } rfl
  rw [hrun, Option.map_some', hlog]
  have hurl : url = parseUrl "http://host/newpath".toList := by
    cases url
    simp only at hp hq hh hs
    subst hp hq hh hs
    decide
  rw [hurl]
  rfl

/-! ## Root inference after unzipping -/

theorem rootLoop_descend (w : World) (dataDir : Path) (c : QString) :
    ∀ (pre : List QString) (root : Path) (fuel : Nat),
      (∀ q : Path, dataDir <+: q → q <+: dataDir ++ c :: pre → q ≠ dataDir ++ c :: pre →
        w.dirExists q = true) →
      pre.length + 2 ≤ fuel →
      rootLoop w dataDir fuel root (dataDir ++ c :: pre) = some (dataDir ++ [c]) := by
  intro pre
  induction pre using List.reverseRecOn with
  | nil =>
    intro root fuel hex hfuel
    obtain ⟨f, rfl⟩ : ∃ f, fuel = f + 2 := ⟨fuel - 2, by simp at hfuel; omega⟩
    have hdata : w.dirExists dataDir = true :=
      hex dataDir (List.prefix_refl _) (List.prefix_append _ _) (by simp)
    have hup : cdUp w (dataDir ++ [c]) = dataDir := by
      simp [cdUp, List.dropLast_concat, hdata]
    simp [rootLoop, hup]
  | append_singleton pre x ih =>
    intro root fuel hex hfuel
    obtain ⟨f, rfl⟩ : ∃ f, fuel = f + 1 := ⟨fuel - 1, by simp at hfuel; omega⟩
    have hne : dataDir ++ c :: (pre ++ [x]) ≠ dataDir := by simp
    have hassoc : dataDir ++ c :: (pre ++ [x]) = (dataDir ++ c :: pre) ++ [x] := by simp
    have hparent : w.dirExists (dataDir ++ c :: pre) = true :=
      hex _ (List.prefix_append _ _) (by rw [hassoc]; exact List.prefix_append _ _)
        (by rw [hassoc]; simp)
    have hup : cdUp w (dataDir ++ c :: (pre ++ [x])) = dataDir ++ c :: pre := by
      unfold cdUp
      rw [hassoc, List.dropLast_concat, if_pos hparent]
    have hex' : ∀ q : Path, dataDir <+: q → q <+: dataDir ++ c :: pre →
        q ≠ dataDir ++ c :: pre → w.dirExists q = true := by
      intro q h1 h2 h3
      refine hex q h1 (h2.trans (by rw [hassoc]; exact List.prefix_append _ _)) ?_
      intro heq
      have hlen := h2.length_le
      rw [heq] at hlen
      simp at hlen
    unfold rootLoop
    rw [if_pos hne, hup]
    exact ih _ f hex' (by simp at hfuel ⊢; omega)

/-- C10: for an extracted file strictly below the docsets directory, all of
whose ancestors down from the docsets directory exist, the root-inference loop
of the unzip handler ends (after at most as many tests as the file lies deep)
and yields the immediate child of the docsets directory on the way to the
file; that child is the only one that is an ancestor of the file or the file
itself. -/
theorem C10_zip_root (w : World) (dataDir : Path) (c : QString) (rest : List QString)
    (others : List Path) (fuel : Nat)
    (hex : ∀ q : Path, dataDir <+: q → q <+: dataDir ++ c :: rest →
      q ≠ dataDir ++ c :: rest → w.dirExists q = true)
    (hfuel : rest.length < fuel) :
    zipRoot w dataDir fuel ((dataDir ++ c :: rest) :: others) = some (dataDir ++ [c]) ∧
    dataDir ++ [c] <+: dataDir ++ c :: rest ∧
    ∀ c' : QString, dataDir ++ [c'] <+: dataDir ++ c :: rest → c' = c := by
  refine ⟨?_, ?_, ?_⟩
  · have hne : dataDir ++ c :: rest ≠ dataDir := by simp
    have hstep : zipRoot w dataDir fuel ((dataDir ++ c :: rest) :: others)
        = rootLoop w dataDir (fuel + 1) [] (dataDir ++ c :: rest) := by
      simp only [zipRoot, rootLoop, if_pos hne]
    rw [hstep]
    exact rootLoop_descend w dataDir c rest [] (fuel + 1) hex (by omega)
  · rw [List.prefix_append_right_inj]
    exact ⟨rest, rfl⟩
  · intro c' hc
    rw [List.prefix_append_right_inj] at hc
    obtain ⟨t, ht⟩ := hc
    simp only [List.singleton_append, List.cons.injEq] at ht
    exact ht.1

/-- C10 on the path of the spec: `A.docset/Contents/x` below the docsets
directory yields `A.docset` below it. -/
theorem C10_zip_root_witness :
    (∀ q : Path, ["docsets".toList] <+: q →
      q <+: ["docsets".toList] ++ "A.docset".toList :: ["Contents".toList, "x".toList] →
      q ≠ ["docsets".toList] ++ "A.docset".toList :: ["Contents".toList, "x".toList] →
      World.sample.dirExists q = true) ∧
    [("Contents".toList : QString), "x".toList].length < 3 ∧
    zipRoot World.sample ["docsets".toList] 3
      [["docsets".toList, "A.docset".toList, "Contents".toList, "x".toList]]
      = some ["docsets".toList, "A.docset".toList] :=
  ⟨fun _ _ _ _ => rfl, by decide,
    (C10_zip_root World.sample ["docsets".toList] "A.docset".toList
      ["Contents".toList, "x".toList] [] 3 (fun _ _ _ _ => rfl) (by decide)).1⟩

/-! ## Retries of an invalid zip -/

theorem startTasks_log (h : Header) (d : Dialog) (n : Int) : (startTasks h d n).log = d.log := by
  unfold startTasks
  dsimp only
  split_ifs <;> rfl

theorem endTasks_log (h : Header) (d : Dialog) (n : Int) : (endTasks h d n).log = d.log := by
  unfold endTasks
  dsimp only
  split_ifs <;> simp [startTasks_log]

theorem startTasks_replies (h : Header) (d : Dialog) (n : Int) :
    (startTasks h d n).replies = d.replies := by
  unfold startTasks
  dsimp only
  split_ifs <;> rfl

theorem endTasks_replies (h : Header) (d : Dialog) (n : Int) :
    (endTasks h d n).replies = d.replies := by
  unfold endTasks
  dsimp only
  split_ifs <;> simp [startTasks_replies]

theorem startTasks_tasksRunning (h : Header) (d : Dialog) (n : Int) :
    (startTasks h d n).tasksRunning = wrapS h.tasksBits (d.tasksRunning + wrapS 8 n) := by
  unfold startTasks
  dsimp only
  split_ifs <;> rfl

theorem endTasks_tasksRunning (h : Header) (d : Dialog) :
    (endTasks h d 1).tasksRunning = wrapS h.tasksBits (d.tasksRunning - 1) := by
  have e : wrapS 8 (-(wrapS 8 1)) = -1 := by decide
  unfold endTasks
  dsimp only
  split_ifs <;> simp [startTasks_tasksRunning, e, sub_eq_add_neg]

theorem extractDocset_retry (h : Header) (w : World) (d : Dialog) (ptr : Nat) (reply : Reply)
    (resp : Response) (r : Int) (p q : QString) (t : List QString)
    (hstatus : resp.status ≠ 302) (hpath : zipPath reply.url.path)
    (hzip : resp.zipOpens = false) (hr : mapLookup ptr d.replies = some r) (hpos : r > 0)
    (hhref : split '?' resp.href = p :: q :: t) :
    extractDocset h w d ptr reply resp
      = some (finish (insertReply
          (naGet { d with replies := mapErase ptr d.replies }
            (followUp { reply.url with path := p, query := q } reply.listItem)).1
          d.nextPtr (r - 1)), none) := by
  simp only [zipPath, String.toList] at hpath
  obtain ⟨h1, h2, h3⟩ := hpath
  simp [extractDocset, dispatch, hstatus, h1, h2, h3, hzip, hr, hpos, hhref, naGet]

theorem extractDocset_invalid (h : Header) (w : World) (d : Dialog) (ptr : Nat) (reply : Reply)
    (resp : Response) (r : Int)
    (hstatus : resp.status ≠ 302) (hpath : zipPath reply.url.path)
    (hzip : resp.zipOpens = false) (hr : mapLookup ptr d.replies = some r) (hpos : r ≤ 0) :
    extractDocset h w d ptr reply resp
      = some (finish (endTasks h
          (emit { d with replies := mapErase ptr d.replies } invalidZip) 1), none) := by
  simp only [zipPath, String.toList] at hpath
  obtain ⟨h1, h2, h3⟩ := hpath
  simp [extractDocset, dispatch, hstatus, h1, h2, h3, hzip, hr, not_lt.2 hpos, invalidZip]

theorem extractDocset_zip (h : Header) (w : World) (d : Dialog) (ptr : Nat) (reply : Reply)
    (resp : Response)
    (hstatus : resp.status ≠ 302) (hpath : zipPath reply.url.path)
    (hzip : resp.zipOpens = true) (hdir : w.dataDirExists = true) :
    extractDocset h w d ptr reply resp
      = some (finish (emit { d with replies := mapErase ptr d.replies }
            (Effect.extractDir w.dataDir)),
          some (Pending.zip resp.files w.dataDir
            (itemAt { d with replies := mapErase ptr d.replies } reply.listItem))) := by
  simp only [zipPath, String.toList] at hpath
  obtain ⟨h1, h2, h3⟩ := hpath
  simp [extractDocset, dispatch, hstatus, h1, h2, h3, hzip, hdir]

theorem mem_mapInsert {α β : Type} [DecidableEq α] (k : α) (v : β) (e : α × β) :
    ∀ m : List (α × β), e ∈ mapInsert k v m → e = (k, v) ∨ e ∈ m
  | [], he => by
    simp only [mapInsert, List.mem_singleton] at he
    exact Or.inl he
  | (k', v') :: m, he => by
    unfold mapInsert at he
    split_ifs at he with hk
    · rcases List.mem_cons.1 he with he | he
      · exact Or.inl he
      · exact Or.inr (List.mem_cons_of_mem _ he)
    · rcases List.mem_cons.1 he with he | he
      · exact Or.inr (he ▸ List.mem_cons_self _ _)
      · rcases mem_mapInsert k v e m he with he | he
        · exact Or.inl he
        · exact Or.inr (List.mem_cons_of_mem _ he)

theorem mem_of_mapLookup {α β : Type} [DecidableEq α] (k : α) (v : β) :
    ∀ m : List (α × β), mapLookup k m = some v → (k, v) ∈ m
  | [], hm => by simp [mapLookup] at hm
  | (k', v') :: m, hm => by
    unfold mapLookup at hm
    split_ifs at hm with hk
    · simp only [Option.some.injEq] at hm
      rw [hk, hm]
      exact List.mem_cons_self _ _
    · exact List.mem_cons_of_mem _ (mem_of_mapLookup k v m hm)

theorem touchUrl_replies (d : Dialog) (text : QString) :
    (touchUrl d text).replies = d.replies := by
  unfold touchUrl
  split_ifs <;> rfl

theorem installLoop_budget (h : Header) (w : World) :
    ∀ (items : List QListWidgetItem) (d : Dialog) (i : Nat) (e : Nat × Int),
      e ∈ (installLoop h w d i items).replies → e ∈ d.replies ∨ e.2 = 1
  | [], d, i, e, he => Or.inl he
  | tmp :: rest, d, i, e, he => by
    have hone : wrapS 8 1 = 1 := by decide
    by_cases hc : tmp.checked = true
    · simp only [installLoop, hc, if_true] at he
      rcases installLoop_budget h w rest _ _ e he with hin | hone'
      · simp only [naGet, insertReply, startTasks_replies, touchUrl_replies] at hin
        rcases mem_mapInsert _ _ _ _ hin with heq | hin
        · right
          rw [heq, hone]
        · exact Or.inl hin
      · exact Or.inr hone'
    · simp only [installLoop, hc] at he
      exact installLoop_budget h w rest _ _ e he

/-- C6, refuted as stated: the install button is pressed on one checked item
whose source is a zip URL, and the reply and its single retry both finish with
an invalid zip.  The reply created by the button has 1 remaining retry, not
2, and after the second invalid zip the job has failed for good: the last
effect is the invalid-ZIP message and no reply is live, so no third response
can turn the job into an install.  And an invalid zip whose page holds no
download link is not re-requested even with the retry left: the second field
of the split link is read out of range. -/
theorem C6_budget_is_one :
    (on_downloadDocsetButton_clicked ⟨32, 32⟩ World.sample
      (Dialog.withChecked "http://drive/uc?id=1".toList)).map (fun d => d.replies)
      = some [(1, 1)] ∧
    (installThenTwo ⟨32, 32⟩ World.sample (Dialog.withChecked "http://drive/uc?id=1".toList)
      1 { Response.ok with href := "/uc?confirm=1".toList }
      2 { Response.ok with href := "/uc?confirm=1".toList }).map
        (fun s => (s.1.replies, s.1.log.getLast?, s.2))
      = some ([], some invalidZip, none) ∧
    (extractDocset ⟨32, 32⟩ World.sample (Dialog.installing "http://drive/uc?id=1".toList) 1
      (replyAt (Dialog.installing "http://drive/uc?id=1".toList) 1) Response.ok).isNone
      = true := by
  refine ⟨by decide, by decide, by decide⟩

/-! ## Cancellation -/

/-- C7, the code at a failing input: the install button is pressed on the item
`A` with source `http://h/A.tgz`, pressed again (which aborts the reply), and
the aborted reply finishes with the cancellation error.  `extractDocset` never
reads the error: it runs bsdtar, and the handler of the extraction renames,
writes the metadata, registers the docset and marks the item done.  With the
zip source `http://h/A.zip` and the one retry left, the aborted reply enters
the retry branch, where the second field of the link scraped from the empty
page is read out of range. -/
theorem C7_abort_not_observed :
    (stopThenFinish ⟨32, 32⟩ World.sample 5 (Dialog.installing "http://h/A.tgz".toList) 1
      Response.aborted).map (fun d => d.log.drop 1)
      = some [Effect.abort 1,
          Effect.tarList ["-zqtf".toList, "*docset".toList],
          Effect.tarExtract ["-zxf".toList],
          Effect.rename ["docsets".toList] [] "A.docset".toList,
          Effect.writeMetadata ["docsets".toList, "A.docset".toList, "meta.json".toList]
            ZealDocsetMetadata.empty,
          Effect.addDocset ["docsets".toList, "A.docset".toList],
          Effect.setDone 0] ∧
    (on_downloadDocsetButton_clicked ⟨32, 32⟩ World.sample
      (Dialog.installing "http://h/A.zip".toList)).map
        (fun d => (d.log.getLast?, d.replies,
          (extractDocset ⟨32, 32⟩ World.sample d 1 (replyAt d 1) Response.aborted).isNone))
      = some (some (Effect.abort 1), [(1, 1)], true) := by
  refine ⟨by decide, by decide⟩

/-! ## Feeds -/

theorem wrapS_wrapS_add (w : Nat) (x y : Int) : wrapS w (wrapS w x + y) = wrapS w (x + y) := by
  have e : wrapS w x + y = (x + y) + (-((x + 2 ^ (w - 1)) / 2 ^ w)) * 2 ^ w := by
    unfold wrapS
    rw [Int.emod_def]
    ring
  rw [e, wrapS_add_mul]

theorem extractDocset_feed_same (h : Header) (w : World) (d : Dialog) (ptr : Nat) (reply : Reply)
    (resp : Response) (hstatus : resp.status ≠ 302)
    (hxml : endsWith reply.url.path "xml".toList = true) (hmirrors : resp.feed.urls ≠ [])
    (hversion : (reply.oldMetadata.getD ZealDocsetMetadata.empty).version = resp.feed.version) :
    extractDocset h w d ptr reply resp
      = some (finish (endTasks h { d with replies := mapErase ptr d.replies } 1), none) := by
  simp only [String.toList] at hxml
  simp [extractDocset, dispatch, hstatus, hxml, hmirrors, hversion]

/-- The feed branch on a reply that carries the known metadata: on a feed
response (status other than 302, URL path ending in `xml`)
with at least one mirror URL and the version of the metadata the request
carries (the empty version when it carries none), `extractDocset` issues no
request and shows no message (the log is unchanged), leaves no handler, and
takes one task off the counter; so when the counter had been raised by the
`startTasks(1)` of the job from a value `t` within its range, it is back at
`t`. -/
theorem feed_up_to_date_direct (h : Header) (w : World) (d : Dialog) (ptr : Nat) (reply : Reply)
    (resp : Response) (hstatus : resp.status ≠ 302)
    (hxml : endsWith reply.url.path "xml".toList = true) (hmirrors : resp.feed.urls ≠ [])
    (hversion : (reply.oldMetadata.getD ZealDocsetMetadata.empty).version = resp.feed.version) :
    ∃ d', extractDocset h w d ptr reply resp = some (d', none) ∧
      d'.log = d.log ∧
      d'.tasksRunning = wrapS h.tasksBits (d.tasksRunning - 1) ∧
      ∀ d0 : Dialog, 1 ≤ h.tasksBits → -(2 : Int) ^ (h.tasksBits - 1) ≤ d0.tasksRunning →
        d0.tasksRunning < 2 ^ (h.tasksBits - 1) →
        d.tasksRunning = (startTasks h d0 1).tasksRunning →
        d'.tasksRunning = d0.tasksRunning := by
  have hcount : (finish (endTasks h { d with replies := mapErase ptr d.replies } 1)).tasksRunning
      = wrapS h.tasksBits (d.tasksRunning - 1) := by
    rw [finish_tasksRunning, endTasks_tasksRunning]
  refine ⟨_, extractDocset_feed_same h w d ptr reply resp hstatus hxml hmirrors hversion,
    ?_, hcount, ?_⟩
  · rw [finish_log, endTasks_log]
  · intro d0 hbits hlo hhi hstart
    have hone : wrapS 8 1 = 1 := by decide
    rw [hcount, hstart, startTasks_tasksRunning, hone, sub_eq_add_neg, wrapS_wrapS_add]
    rw [show d0.tasksRunning + 1 + -1 = d0.tasksRunning by ring]
    exact wrapS_eq_self hbits hlo hhi

/-- The feed branch on an update: the registry holds `A` at version `1`, the
update button is pressed, and the feed answers with version `1` again. -/
theorem feed_up_to_date_direct_example :
    ({ Response.ok with feed := World.installed.meta "A".toList } : Response).status ≠ 302 ∧
    endsWith (replyAt (updateDocsets ⟨32, 32⟩ World.installed Dialog.init) 0).url.path
      "xml".toList = true ∧
    (World.installed.meta "A".toList).urls ≠ [] ∧
    ∃ d', extractDocset ⟨32, 32⟩ World.installed
        (updateDocsets ⟨32, 32⟩ World.installed Dialog.init) 0
        (replyAt (updateDocsets ⟨32, 32⟩ World.installed Dialog.init) 0)
        { Response.ok with feed := World.installed.meta "A".toList } = some (d', none) ∧
      d'.log = (updateDocsets ⟨32, 32⟩ World.installed Dialog.init).log ∧
      d'.tasksRunning = 0 := by
  refine ⟨by decide, by decide, by decide, ?_⟩
  obtain ⟨d', hrun, hlog, -, hnet⟩ :=
    feed_up_to_date_direct ⟨32, 32⟩ World.installed
      (updateDocsets ⟨32, 32⟩ World.installed Dialog.init) 0
      (replyAt (updateDocsets ⟨32, 32⟩ World.installed Dialog.init) 0)
      { Response.ok with feed := World.installed.meta "A".toList }
      (by decide) (by decide) (by decide) (by decide)
  exact ⟨d', hrun, hlog, hnet Dialog.init (by decide) (by decide) (by decide) (by decide)⟩

/-! ## Effects of an install -/

theorem markDone_log (d : Dialog) (found : Bool) (listItem : Option Nat)
    (hnull : listItem = none → found = false) :
    ∃ d', markDone d found listItem = some d' ∧
      d'.log = d.log ++ doneEffects found listItem := by
  cases found with
  | false => exact ⟨d, rfl, by simp [doneEffects]⟩
  | true =>
    cases listItem with
    | none => exact absurd (hnull rfl) (by decide)
    | some item => exact ⟨setDone d item, rfl, by simp [doneEffects, setDone, emit]⟩

/-- C9, refuted as stated: the install button is pressed on the item `A` with
the zip source `http://h/A.zip`, the reply finishes with a valid zip holding
`A.docset/Contents/x`, and the unzip handler runs.  After the request, the
effects are the extraction, `addDocset` and the done flag: no metadata file is
written on the zip path. -/
theorem C9_zip_writes_no_metadata :
    (finishReply ⟨32, 32⟩ World.sample 3 (Dialog.installing "http://h/A.zip".toList) 1
      { Response.ok with
        zipOpens := true
        files := [["docsets".toList, "A.docset".toList, "Contents".toList, "x".toList]] }).map
      (fun d => d.log.drop 1)
      = some [Effect.extractDir ["docsets".toList],
          Effect.addDocset ["docsets".toList, "A.docset".toList],
          Effect.setDone 0] := by
  decide

/-- C9, amended: the handler of the tar extraction appends to the effects, in
this order, the rename (when the listed directory has another name), the
write of `meta.json` inside the installed root, `addDocset` of that root and
then the done flag of the item (when the docset is listed).  The unzip
handler, once the root is inferred, appends `addDocset` of the root and then
the done flag, and writes no metadata file.  In both handlers the item pointer
may be null only when the docset is not listed. -/
theorem C9_install_effects (h : Header) (w : World) (fuel : Nat) (d : Dialog) (dataDir : Path)
    (outDir : QString) (path : List QString) (metadata : ZealDocsetMetadata)
    (listItem : Option Nat) (files : List Path) (root : Path)
    (hroot : zipRoot w dataDir fuel files = some root)
    (hnullTar : listItem = none → tarFound d (tarDocsetName path) = false)
    (hnullZip : listItem = none → zipFound d (root.getLastD []) = false) :
    (∃ d', tarFinished h d dataDir outDir path metadata listItem = some d' ∧
      d'.log = d.log ++
        (if outDir ≠ tarDocsetName path then
          [Effect.rename dataDir outDir (tarDocsetName path)] else []) ++
        [Effect.writeMetadata (dataDir ++ [tarDocsetName path] ++ ["meta.json".toList]) metadata,
          Effect.addDocset (dataDir ++ [tarDocsetName path])] ++
        doneEffects (tarFound d (tarDocsetName path)) listItem) ∧
    (∃ d', zipFinished h w fuel d files dataDir listItem = some d' ∧
      d'.log = d.log ++ [Effect.addDocset root] ++
        doneEffects (zipFound d (root.getLastD [])) listItem) := by
  constructor
  · obtain ⟨d', hmark, hlog⟩ := markDone_log
      (emit (emit (if outDir ≠ tarDocsetName path then
          emit d (Effect.rename dataDir outDir (tarDocsetName path)) else d)
        (Effect.writeMetadata (dataDir ++ [tarDocsetName path] ++ ["meta.json".toList]) metadata))
        (Effect.addDocset (dataDir ++ [tarDocsetName path])))
      (tarFound d (tarDocsetName path)) listItem hnullTar
    have hfound : tarFound (emit (emit (if outDir ≠ tarDocsetName path then
          emit d (Effect.rename dataDir outDir (tarDocsetName path)) else d)
        (Effect.writeMetadata (dataDir ++ [tarDocsetName path] ++ ["meta.json".toList]) metadata))
        (Effect.addDocset (dataDir ++ [tarDocsetName path]))) (tarDocsetName path)
        = tarFound d (tarDocsetName path) := by
      split_ifs <;> rfl
    refine ⟨endTasks h d' 1, ?_, ?_⟩
    · simp only [tarFinished, hfound, hmark, Option.map_some']
    · rw [endTasks_log, hlog]
      split_ifs <;> simp [emit]
  · obtain ⟨d', hmark, hlog⟩ := markDone_log (emit d (Effect.addDocset root))
      (zipFound d (root.getLastD [])) listItem hnullZip
    have hfound : zipFound (emit d (Effect.addDocset root)) (root.getLastD [])
        = zipFound d (root.getLastD []) := rfl
    refine ⟨endTasks h d' 1, ?_, ?_⟩
    · simp only [zipFinished, hroot, hfound, hmark, Option.map_some']
    · rw [endTasks_log, hlog]
      simp [emit]

/-- C9, amended, on the item `A` while it is installing: the tar handler for
`/A.tgz` listed as `A.docset`, and the unzip handler for the extracted file
`A.docset/Contents/x`. -/
theorem C9_install_effects_witness :
    zipRoot World.sample ["docsets".toList] 3
      [["docsets".toList, "A.docset".toList, "Contents".toList, "x".toList]]
      = some ["docsets".toList, "A.docset".toList] ∧
    (∃ d', tarFinished ⟨32, 32⟩ (Dialog.installing "http://h/A.tgz".toList) ["docsets".toList]
        "A.docset".toList ["".toList, "A.tgz".toList] ZealDocsetMetadata.empty (some 0) = some d' ∧
      d'.log.drop 1 =
        [Effect.writeMetadata ["docsets".toList, "A.docset".toList, "meta.json".toList]
            ZealDocsetMetadata.empty,
          Effect.addDocset ["docsets".toList, "A.docset".toList],
          Effect.setDone 0]) ∧
    (∃ d', zipFinished ⟨32, 32⟩ World.sample 3 (Dialog.installing "http://h/A.tgz".toList)
        [["docsets".toList, "A.docset".toList, "Contents".toList, "x".toList]]
        ["docsets".toList] (some 0) = some d' ∧
      d'.log.drop 1 = [Effect.addDocset ["docsets".toList, "A.docset".toList],
        Effect.setDone 0]) := by
  obtain ⟨⟨d1, hrun1, hlog1⟩, ⟨d2, hrun2, hlog2⟩⟩ :=
    C9_install_effects ⟨32, 32⟩ World.sample 3 (Dialog.installing "http://h/A.tgz".toList)
      ["docsets".toList] "A.docset".toList ["".toList, "A.tgz".toList] ZealDocsetMetadata.empty
      (some 0) [["docsets".toList, "A.docset".toList, "Contents".toList, "x".toList]]
      ["docsets".toList, "A.docset".toList] (by decide) (fun hn => by cases hn)
      (fun hn => by cases hn)
  refine ⟨by decide, ⟨d1, hrun1, ?_⟩, ⟨d2, hrun2, ?_⟩⟩
  · rw [hlog1]
    decide
  · rw [hlog2]
    decide

/-! ## HTML catalog -/

theorem split_append_sep_all (sep : Char) (t : QString) :
    ∀ s : QString, split sep (s ++ sep :: t) = split sep s ++ split sep t
  | [] => by simp [split]
  | c :: cs => by
    have ih := split_append_sep_all sep t cs
    by_cases hc : c = sep
    · simp [split, hc, ih]
    · obtain ⟨x, xs, hx⟩ : ∃ x xs, split sep cs = x :: xs := by
        cases hs : split sep cs with
        | nil => exact absurd hs (split_ne_nil _ _)
        | cons a l => exact ⟨a, l, rfl⟩
      simp [split, hc, ih, hx]

theorem intercalate_cons_cons (sep : QString) (c : Char) (x : QString) (xs : List QString) :
    sep.intercalate ((c :: x) :: xs) = c :: sep.intercalate (x :: xs) := by
  cases xs with
  | nil => simp [List.intercalate]
  | cons y ys => simp [List.intercalate]

theorem intercalate_split (sep : Char) : ∀ s : QString, [sep].intercalate (split sep s) = s
  | [] => by simp [split, List.intercalate]
  | c :: cs => by
    have ih := intercalate_split sep cs
    obtain ⟨x, xs, hx⟩ : ∃ x xs, split sep cs = x :: xs := by
      cases hs : split sep cs with
      | nil => exact absurd hs (split_ne_nil _ _)
      | cons a l => exact ⟨a, l, rfl⟩
    rw [hx] at ih
    by_cases hc : c = sep
    · subst hc
      have e : split c (c :: cs) = [] :: x :: xs := by simp [split, hx]
      rw [e]
      have : [c].intercalate ([] :: x :: xs) = c :: [c].intercalate (x :: xs) := by
        simp [List.intercalate]
      rw [this, ih]
    · have e : split sep (c :: cs) = (c :: x) :: xs := by simp [split, hc, hx]
      rw [e, intercalate_cons_cons, ih]

theorem url_last_segment (base file : QString) (hfile : '/' ∉ file) :
    (split '/' (base ++ '/' :: file)).getLastD [] = file ∧
    sectionButLast (base ++ '/' :: file) = base := by
  have hs : split '/' (base ++ '/' :: file) = split '/' base ++ [file] := by
    rw [split_append_sep_all, split_of_not_mem '/' file hfile]
  constructor
  · rw [hs]
    simp
  · unfold sectionButLast
    rw [hs, List.dropLast_concat]
    exact intercalate_split '/' base

theorem replaceAux_append_of_no_dot (b after t : QString) :
    ∀ stem : QString, '.' ∉ stem →
      replaceAux ('.' :: b) after 0 (stem ++ t) = stem ++ replaceAux ('.' :: b) after 0 t
  | [], _ => rfl
  | c :: cs, hs => by
    have hc : ¬ '.' = c := fun e => hs (e ▸ List.mem_cons_self _ _)
    have hcs : '.' ∉ cs := fun m => hs (List.mem_cons_of_mem _ m)
    have ih := replaceAux_append_of_no_dot b after t cs hcs
    simp [replaceAux, List.isPrefixOf, hc, ih]

theorem stripArchive_suffix (stem : QString) (hstem : '.' ∉ stem) :
    stripArchive (stem ++ ".tgz".toList) = stem ∧
    stripArchive (stem ++ ".tar.bz2".toList) = stem := by
  have h1 : replaceAux ".tgz".toList [] 0 ".tgz".toList = [] := by decide
  have h2 : replaceAux ".tgz".toList [] 0 ".tar.bz2".toList = ".tar.bz2".toList := by decide
  have h3 : replaceAux ".tar.bz2".toList [] 0 ".tar.bz2".toList = [] := by decide
  have h4 : replaceAux ".tar.bz2".toList [] 0 [] = [] := rfl
  have e1 := replaceAux_append_of_no_dot "tgz".toList [] ".tgz".toList stem hstem
  have e2 := replaceAux_append_of_no_dot "tgz".toList [] ".tar.bz2".toList stem hstem
  have e3 := replaceAux_append_of_no_dot "tar.bz2".toList [] ".tar.bz2".toList stem hstem
  have e4 := replaceAux_append_of_no_dot "tar.bz2".toList [] [] stem hstem
  constructor
  · unfold stripArchive replace
    change replaceAux ".tar.bz2".toList [] 0
      (replaceAux ('.' :: "tgz".toList) [] 0 (stem ++ ".tgz".toList)) = stem
    rw [e1]
    change replaceAux ('.' :: "tar.bz2".toList) [] 0
      (stem ++ replaceAux ".tgz".toList [] 0 ".tgz".toList) = stem
    rw [h1, e4]
    change stem ++ replaceAux ".tar.bz2".toList [] 0 [] = stem
    rw [h4, List.append_nil]
  · unfold stripArchive replace
    change replaceAux ".tar.bz2".toList [] 0
      (replaceAux ('.' :: "tgz".toList) [] 0 (stem ++ ".tar.bz2".toList)) = stem
    rw [e2]
    change replaceAux ('.' :: "tar.bz2".toList) [] 0
      (stem ++ replaceAux ".tgz".toList [] 0 ".tar.bz2".toList) = stem
    rw [h2, e3]
    change stem ++ replaceAux ".tar.bz2".toList [] 0 ".tar.bz2".toList = stem
    rw [h3, List.append_nil]

/-- C11, refuted as stated: the anchor `http://kapeli.com/docsets/newsfeeds.tgz`
has no path segment `feeds`, yet the HTML branch stores the feed URL
`http://kapeli.com/docsets/newsfeeds.xml` for it instead of the URL itself,
because the test is for the substring `feeds` anywhere in the URL. -/
theorem C11_substring_counts_as_feed :
    "feeds".toList ∉ split '/' (parseUrl "http://kapeli.com/docsets/newsfeeds.tgz".toList).path ∧
    mapLookup "newsfeeds".toList
      (htmlLoop World.sample Dialog.init ["http://kapeli.com/docsets/newsfeeds.tgz".toList]).urls
      = some "http://kapeli.com/docsets/newsfeeds.xml".toList ∧
    "http://kapeli.com/docsets/newsfeeds.xml".toList
      ≠ "http://kapeli.com/docsets/newsfeeds.tgz".toList := by
  decide

/-- C11, amended: for an anchor URL `base/file` whose name (the last segment
`file` with every `.tgz` and `.tar.bz2` removed) is not empty and not in the
registry, the HTML branch stores under that name `base/name.xml` (the URL with
its last segment replaced) when the URL contains the substring `feeds`
anywhere, and the URL itself otherwise, and goes on with the other anchors;
for a last segment `stem.tgz` or `stem.tar.bz2` with no other dot the name is
`stem`. -/
theorem C11_stored_url (w : World) (d : Dialog) (base file : QString) (rest : List QString)
    (hfile : '/' ∉ file) (hname : stripArchive file ≠ [])
    (hnew : w.names.contains (stripArchive file) = false) :
    htmlLoop w d ((base ++ '/' :: file) :: rest)
      = htmlLoop w
          (addItem { d with
            urls := mapInsert (stripArchive file)
              (storedUrl (base ++ '/' :: file) (stripArchive file)) d.urls }
            (stripArchive file)) rest ∧
    mapLookup (stripArchive file) (htmlLoop w d [base ++ '/' :: file]).urls
      = some (storedUrl (base ++ '/' :: file) (stripArchive file)) ∧
    storedUrl (base ++ '/' :: file) (stripArchive file)
      = (if contains (base ++ '/' :: file) "feeds".toList = true then
          base ++ '/' :: stripArchive file ++ ".xml".toList
        else base ++ '/' :: file) ∧
    (∀ stem : QString, '.' ∉ stem →
      stripArchive (stem ++ ".tgz".toList) = stem ∧
      stripArchive (stem ++ ".tar.bz2".toList) = stem) := by
  obtain ⟨hlast, hsection⟩ := url_last_segment base file hfile
  have hstep : ∀ rest : List QString, htmlLoop w d ((base ++ '/' :: file) :: rest)
      = htmlLoop w
          (addItem { d with
            urls := mapInsert (stripArchive file)
              (storedUrl (base ++ '/' :: file) (stripArchive file)) d.urls }
            (stripArchive file)) rest := by
    intro rest
    have hname' : replace (replace file ".tgz".toList []) ".tar.bz2".toList [] ≠ [] := hname
    have hnew' : w.names.contains
        (replace (replace file ".tgz".toList []) ".tar.bz2".toList []) = false := hnew
    rw [htmlLoop]
    simp only [hlast, hname', hnew', ne_eq, not_false_eq_true, and_self, if_true,
      Bool.false_eq_true]
    rfl
  refine ⟨hstep rest, ?_, ?_, stripArchive_suffix⟩
  · rw [hstep []]
    simp only [htmlLoop, addItem, mapLookup_mapInsert_self]
  · unfold storedUrl
    rw [hsection]
    split_ifs <;> simp

/-- C11, amended, on the anchor `http://kapeli.com/feeds/zzz/NET_Framework.tgz`:
the stored source is `http://kapeli.com/feeds/zzz/NET_Framework.xml`. -/
theorem C11_stored_url_witness :
    '/' ∉ "NET_Framework.tgz".toList ∧
    stripArchive "NET_Framework.tgz".toList ≠ [] ∧
    World.sample.names.contains (stripArchive "NET_Framework.tgz".toList) = false ∧
    mapLookup "NET_Framework".toList
      (htmlLoop World.sample Dialog.init
        ["http://kapeli.com/feeds/zzz/NET_Framework.tgz".toList]).urls
      = some "http://kapeli.com/feeds/zzz/NET_Framework.xml".toList := by
  refine ⟨by decide, by decide, by decide, ?_⟩
  have key := (C11_stored_url World.sample Dialog.init "http://kapeli.com/feeds/zzz".toList
    "NET_Framework.tgz".toList [] (by decide) (by decide) (by decide)).2
  have hname : stripArchive "NET_Framework.tgz".toList = "NET_Framework".toList := by decide
  have hurl : "http://kapeli.com/feeds/zzz".toList ++ '/' :: "NET_Framework.tgz".toList
      = "http://kapeli.com/feeds/zzz/NET_Framework.tgz".toList := by decide
  rw [hname, hurl] at key
  rw [key.1, key.2.1]
  decide

/-! ## Completion sweep and progress reset -/

theorem endTasks_eq (h : Header) (d : Dialog) (n : Int) :
    endTasks h d n =
      if (startTasks h d (-(wrapS 8 n))).tasksRunning ≤ 0 then
        { startTasks h d (-(wrapS 8 n)) with
          docsetsList := (startTasks h d (-(wrapS 8 n))).docsetsList.filter
            (fun item => !item.done) }
      else startTasks h d (-(wrapS 8 n)) := rfl

theorem startTasks_docsetsList (h : Header) (d : Dialog) (n : Int) :
    (startTasks h d n).docsetsList = d.docsetsList := by
  unfold startTasks
  dsimp only
  split_ifs <;> rfl

theorem startTasks_reset (h : Header) (d : Dialog) (n : Int)
    (hzero : (startTasks h d n).tasksRunning = 0) :
    (startTasks h d n).progress = [] ∧ (startTasks h d n).currentDownload = 0 ∧
      (startTasks h d n).totalDownload = 0 := by
  rw [startTasks_tasksRunning] at hzero
  simp [startTasks, hzero, resetProgress]

theorem startTasks_keep (h : Header) (d : Dialog) (n : Int)
    (hne : (startTasks h d n).tasksRunning ≠ 0) :
    (startTasks h d n).progress = d.progress ∧
      (startTasks h d n).currentDownload = d.currentDownload ∧
      (startTasks h d n).totalDownload = d.totalDownload := by
  rw [startTasks_tasksRunning] at hne
  simp [startTasks, hne]

theorem endTasks_tasksRunning_eq (h : Header) (d : Dialog) (n : Int) :
    (endTasks h d n).tasksRunning = (startTasks h d (-(wrapS 8 n))).tasksRunning := by
  rw [endTasks_eq]
  split_ifs <;> rfl

theorem endTasks_progress_eq (h : Header) (d : Dialog) (n : Int) :
    (endTasks h d n).progress = (startTasks h d (-(wrapS 8 n))).progress ∧
    (endTasks h d n).currentDownload = (startTasks h d (-(wrapS 8 n))).currentDownload ∧
    (endTasks h d n).totalDownload = (startTasks h d (-(wrapS 8 n))).totalDownload := by
  rw [endTasks_eq]
  split_ifs <;> exact ⟨rfl, rfl, rfl⟩

/-- C12, refuted as stated, from a dialog with one task running, a recorded
sample and an item flagged done: `endTasks(2)` leaves the counter at -1 and
removes the item, but the samples and the aggregates stay as they were;
`startTasks(-1)` leaves the counter at 0 and resets the aggregator, but the
item flagged done stays listed. -/
theorem C12_sweep_and_reset_differ :
    (endTasks ⟨32, 32⟩ Dialog.busy 2).tasksRunning = -1 ∧
    (endTasks ⟨32, 32⟩ Dialog.busy 2).docsetsList = [] ∧
    (endTasks ⟨32, 32⟩ Dialog.busy 2).progress = [(7, (20000, 50000))] ∧
    (endTasks ⟨32, 32⟩ Dialog.busy 2).currentDownload = 20000 ∧
    (endTasks ⟨32, 32⟩ Dialog.busy 2).totalDownload = 50000 ∧
    (startTasks ⟨32, 32⟩ Dialog.busy (-1)).tasksRunning = 0 ∧
    (startTasks ⟨32, 32⟩ Dialog.busy (-1)).progress = [] ∧
    (startTasks ⟨32, 32⟩ Dialog.busy (-1)).docsetsList = Dialog.busy.docsetsList ∧
    (Dialog.busy.docsetsList.map (fun item => item.done)) = [true] := by
  decide

/-- C12, amended: after every call `endTasks(n)` that leaves the counter at 0
or below, the items flagged done are removed from the list; after every call
`startTasks(n)` or `endTasks(n)` that leaves the counter at exactly 0, the
progress aggregator is reset (no sample, both aggregates 0).  A call that
leaves the counter away from 0 keeps the samples and the aggregates, and
`startTasks` never removes an item. -/
theorem C12_sweep_and_reset (h : Header) (d : Dialog) (n : Int) :
    ((endTasks h d n).tasksRunning ≤ 0 →
      (endTasks h d n).docsetsList = d.docsetsList.filter (fun item => !item.done)) ∧
    ((endTasks h d n).tasksRunning = 0 →
      (endTasks h d n).progress = [] ∧ (endTasks h d n).currentDownload = 0 ∧
        (endTasks h d n).totalDownload = 0) ∧
    ((startTasks h d n).tasksRunning = 0 →
      (startTasks h d n).progress = [] ∧ (startTasks h d n).currentDownload = 0 ∧
        (startTasks h d n).totalDownload = 0) ∧
    ((endTasks h d n).tasksRunning ≠ 0 →
      (endTasks h d n).progress = d.progress ∧
        (endTasks h d n).currentDownload = d.currentDownload ∧
        (endTasks h d n).totalDownload = d.totalDownload) ∧
    ((startTasks h d n).tasksRunning ≠ 0 →
      (startTasks h d n).progress = d.progress ∧
        (startTasks h d n).currentDownload = d.currentDownload ∧
        (startTasks h d n).totalDownload = d.totalDownload) ∧
    (startTasks h d n).docsetsList = d.docsetsList := by
  obtain ⟨hp, hc, ht⟩ := endTasks_progress_eq h d n
  refine ⟨?_, ?_, startTasks_reset h d n, ?_, startTasks_keep h d n,
    startTasks_docsetsList h d n⟩
  · intro hle
    rw [endTasks_tasksRunning_eq] at hle
    rw [endTasks_eq, if_pos hle]
    simp only [startTasks_docsetsList]
  · intro hzero
    rw [endTasks_tasksRunning_eq] at hzero
    rw [hp, hc, ht]
    exact startTasks_reset h d _ hzero
  · intro hne
    rw [endTasks_tasksRunning_eq] at hne
    rw [hp, hc, ht]
    exact startTasks_keep h d _ hne

/-- C12, amended, on the last task of a batch: `endTasks(1)` brings the counter
from 1 to 0, removes the item flagged done and resets the aggregator. -/
theorem C12_sweep_and_reset_witness :
    (endTasks ⟨32, 32⟩ Dialog.busy 1).tasksRunning ≤ 0 ∧
    (endTasks ⟨32, 32⟩ Dialog.busy 1).tasksRunning = 0 ∧
    (endTasks ⟨32, 32⟩ Dialog.busy 1).docsetsList = [] ∧
    (endTasks ⟨32, 32⟩ Dialog.busy 1).progress = [] ∧
    (endTasks ⟨32, 32⟩ Dialog.busy 1).currentDownload = 0 ∧
    (endTasks ⟨32, 32⟩ Dialog.busy 1).totalDownload = 0 :=
  ⟨by decide, by decide,
    (C12_sweep_and_reset ⟨32, 32⟩ Dialog.busy 1).1 (by decide),
    ((C12_sweep_and_reset ⟨32, 32⟩ Dialog.busy 1).2.1 (by decide)).1,
    ((C12_sweep_and_reset ⟨32, 32⟩ Dialog.busy 1).2.1 (by decide)).2.1,
    ((C12_sweep_and_reset ⟨32, 32⟩ Dialog.busy 1).2.1 (by decide)).2.2⟩

/-! ## Redirects re-arm the retry -/

theorem finish_objects (d : Dialog) : (finish d).objects = d.objects := by
  unfold finish
  split_ifs <;> rfl

theorem finish_nextPtr (d : Dialog) : (finish d).nextPtr = d.nextPtr := by
  unfold finish
  split_ifs <;> rfl

theorem mapLookup_append_fresh {α β : Type} [DecidableEq α] (k : α) (v : β) :
    ∀ m : List (α × β), (∀ e ∈ m, e.1 ≠ k) → mapLookup k (m ++ [(k, v)]) = some v
  | [], _ => by simp [mapLookup]
  | (k', v') :: m, hm => by
    have hk : ¬ k' = k := hm (k', v') (List.mem_cons_self _ _)
    have ih := mapLookup_append_fresh k v m (fun e he => hm e (List.mem_cons_of_mem _ he))
    simp [mapLookup, hk, ih]

/-- What `extractDocset` leaves when it issues the request `reply` with
`retries` retries from the state `d0` (the reply taken out already). -/
theorem request_facts (d0 : Dialog) (reply : Reply) (retries : Int) :
    (finish (insertReply (naGet d0 reply).1 d0.nextPtr retries)).nextPtr = d0.nextPtr + 1 ∧
    (finish (insertReply (naGet d0 reply).1 d0.nextPtr retries)).objects
      = d0.objects ++ [(d0.nextPtr, reply)] ∧
    (finish (insertReply (naGet d0 reply).1 d0.nextPtr retries)).log
      = d0.log ++ [Effect.get d0.nextPtr reply] ∧
    mapLookup d0.nextPtr (finish (insertReply (naGet d0 reply).1 d0.nextPtr retries)).replies
      = some (wrapS 8 retries) ∧
    (finish (insertReply (naGet d0 reply).1 d0.nextPtr retries)).tasksRunning
      = d0.tasksRunning := by
  refine ⟨?_, ?_, ?_, ?_, ?_⟩
  · rw [finish_nextPtr]; rfl
  · rw [finish_objects]; rfl
  · rw [finish_log]; rfl
  · rw [finish_replies]
    simp only [insertReply, mapLookup_mapInsert_self]
  · rw [finish_tasksRunning]; rfl

theorem jobStep_request (h : Header) (w : World) (fuel : Nat) (d d1 : Dialog) (ptr : Nat)
    (resp : Response) (hrun : extractDocset h w d ptr (replyAt d ptr) resp = some (d1, none))
    (hnew : d.nextPtr < d1.nextPtr) :
    jobStep h w fuel d (JobState.waiting ptr) resp = some (d1, JobState.waiting d.nextPtr) := by
  simp [jobStep, hrun, hnew]

theorem replyAt_newest (d : Dialog) (d1 : Dialog) (reply : Reply)
    (hfresh : ∀ e ∈ d.objects, e.1 < d.nextPtr)
    (hobj : d1.objects = d.objects ++ [(d.nextPtr, reply)]) :
    replyAt d1 d.nextPtr = reply := by
  unfold replyAt
  rw [hobj, mapLookup_append_fresh _ _ _ (fun e he => Nat.ne_of_lt (hfresh e he))]
  rfl

theorem alternating_step (h : Header) (fuel : Nat) (d : Dialog) (ptr : Nat)
    (hinv : Armed d ptr) :
    ∃ d2, runJob h World.sample fuel d (JobState.waiting ptr)
        [Response.interstitial, Response.redirect] = some (d2, JobState.waiting (ptr + 2)) ∧
      bypassCount d2 = bypassCount d + 1 ∧ d2.tasksRunning = d.tasksRunning ∧
      Armed d2 (ptr + 2) := by
  obtain ⟨hnext, hlook, hpath, hfresh⟩ := hinv
  -- first event: the interstitial page is answered by the re-request
  have hrun1 := extractDocset_retry h World.sample d ptr (replyAt d ptr) Response.interstitial 1
    "/uc".toList "confirm=1".toList [] (by decide) hpath rfl hlook (by norm_num) (by decide)
  obtain ⟨hn1, ho1, hl1, -, ht1⟩ := request_facts { d with replies := mapErase ptr d.replies }
    (followUp { (replyAt d ptr).url with path := "/uc".toList, query := "confirm=1".toList }
      (replyAt d ptr).listItem) (1 - 1)
  generalize finish (insertReply (naGet { d with replies := mapErase ptr d.replies }
    (followUp { (replyAt d ptr).url with path := "/uc".toList, query := "confirm=1".toList }
      (replyAt d ptr).listItem)).1 d.nextPtr (1 - 1)) = d1 at hrun1 hn1 ho1 hl1 ht1
  have hn1' : d1.nextPtr = d.nextPtr + 1 := hn1
  have hstep1 := jobStep_request h World.sample fuel d d1 ptr Response.interstitial hrun1
    (by omega)
  have hreply1 : replyAt d1 d.nextPtr
      = followUp { (replyAt d ptr).url with path := "/uc".toList, query := "confirm=1".toList }
          (replyAt d ptr).listItem := replyAt_newest d d1 _ hfresh ho1
  have hfresh1 : ∀ e ∈ d1.objects, e.1 < d1.nextPtr := by
    intro e he
    rw [ho1, List.mem_append, List.mem_singleton] at he
    rcases he with he | he
    · have := hfresh e he
      omega
    · rw [he, hn1']
      exact Nat.lt_succ_self _
  -- second event: the redirect is followed with a fresh retry
  have hrun2 := extractDocset_redirect h World.sample d1 d.nextPtr (replyAt d1 d.nextPtr)
    Response.redirect rfl
  obtain ⟨hn2, ho2, hl2, hb2, ht2⟩ := request_facts
    { d1 with replies := mapErase d.nextPtr d1.replies }
    (followUp (resolveRedirect (World.sample.toUrl Response.redirect.location)
      (replyAt d1 d.nextPtr).url) (replyAt d1 d.nextPtr).listItem) 1
  generalize finish (insertReply (naGet { d1 with replies := mapErase d.nextPtr d1.replies }
    (followUp (resolveRedirect (World.sample.toUrl Response.redirect.location)
      (replyAt d1 d.nextPtr).url) (replyAt d1 d.nextPtr).listItem)).1 d1.nextPtr 1) = d2
    at hrun2 hn2 ho2 hl2 hb2 ht2
  have hn2' : d2.nextPtr = d1.nextPtr + 1 := hn2
  have ho2' : d2.objects = d1.objects ++ [(d1.nextPtr, followUp (resolveRedirect
      (World.sample.toUrl Response.redirect.location) (replyAt d1 d.nextPtr).url)
      (replyAt d1 d.nextPtr).listItem)] := ho2
  have hstep2 := jobStep_request h World.sample fuel d1 d2 d.nextPtr Response.redirect hrun2
    (by omega)
  obtain ⟨hrp, hrq, -, -⟩ := resolveRedirect_fields
    (World.sample.toUrl Response.redirect.location) (replyAt d1 d.nextPtr).url
  have hreply2 := replyAt_newest d1 d2 _ hfresh1 ho2'
  refine ⟨d2, ?_, ?_, ?_, ?_, ?_, ?_, ?_⟩
  · simp only [runJob, hstep1, Option.some_bind, hstep2]
    rw [hn1', hnext]
  · have hl2' : d2.log = d1.log ++ [Effect.get d1.nextPtr (followUp (resolveRedirect
        (World.sample.toUrl Response.redirect.location) (replyAt d1 d.nextPtr).url)
        (replyAt d1 d.nextPtr).listItem)] := hl2
    have hl1' : d1.log = d.log ++ [Effect.get d.nextPtr (followUp
        { (replyAt d ptr).url with path := "/uc".toList, query := "confirm=1".toList }
        (replyAt d ptr).listItem)] := hl1
    have hq : (resolveRedirect (World.sample.toUrl Response.redirect.location)
        (replyAt d1 d.nextPtr).url).query ≠ "confirm=1".toList := by
      rw [hrq]
      decide
    have hb1 : isBypass (Effect.get d.nextPtr (followUp
        { (replyAt d ptr).url with path := "/uc".toList, query := "confirm=1".toList }
        (replyAt d ptr).listItem)) = true := by
      simp [isBypass, followUp]
    have hb2 : isBypass (Effect.get d1.nextPtr (followUp (resolveRedirect
        (World.sample.toUrl Response.redirect.location) (replyAt d1 d.nextPtr).url)
        (replyAt d1 d.nextPtr).listItem)) = false := by
      simp only [isBypass, followUp, decide_eq_false_iff_not]
      exact hq
    unfold bypassCount
    rw [hl2', hl1', List.filter_append, List.filter_append, List.filter_singleton,
      List.filter_singleton, hb1, hb2]
    simp
  · have ht2' : d2.tasksRunning = d1.tasksRunning := ht2
    have ht1' : d1.tasksRunning = d.tasksRunning := ht1
    rw [ht2', ht1']
  · rw [hn2', hn1', hnext]
  · have hone : wrapS 8 1 = 1 := by decide
    have : mapLookup d1.nextPtr d2.replies = some (wrapS 8 1) := hb2
    rw [hone, hn1', hnext] at this
    exact this
  · have e : ptr + 2 = d1.nextPtr := by omega
    rw [e, hreply2]
    show zipPath (resolveRedirect (World.sample.toUrl Response.redirect.location)
      (replyAt d1 d.nextPtr).url).path
    rw [hrp]
    decide
  · intro e he
    rw [ho2', List.mem_append, List.mem_singleton] at he
    rcases he with he | he
    · have := hfresh1 e he
      omega
    · rw [he, hn2']
      exact Nat.lt_succ_self _

theorem runJob_cons_cons (h : Header) (w : World) (fuel : Nat) (d : Dialog) (job : JobState)
    (x y : Response) (rest : List Response) :
    runJob h w fuel d job (x :: y :: rest)
      = (runJob h w fuel d job [x, y]).bind (fun s => runJob h w fuel s.1 s.2 rest) := by
  simp only [runJob]
  cases jobStep h w fuel d job x with
  | none => rfl
  | some s =>
    simp only [Option.some_bind]
    cases jobStep h w fuel s.1 s.2 y with
    | none => rfl
    | some t => simp [runJob]

theorem alternating_run (h : Header) (fuel : Nat) :
    ∀ (n : Nat) (d : Dialog) (ptr : Nat), Armed d ptr →
      ∃ d', runJob h World.sample fuel d (JobState.waiting ptr) (alternating n)
          = some (d', JobState.waiting (ptr + 2 * n)) ∧
        bypassCount d' = bypassCount d + n ∧ d'.tasksRunning = d.tasksRunning ∧
        Armed d' (ptr + 2 * n)
  | 0, d, ptr, hinv => ⟨d, rfl, rfl, rfl, hinv⟩
  | n + 1, d, ptr, hinv => by
    obtain ⟨d2, hrun2, hcount2, htasks2, hinv2⟩ := alternating_step h fuel d ptr hinv
    obtain ⟨d', hrun, hcount, htasks, hinv'⟩ := alternating_run h fuel n d2 (ptr + 2) hinv2
    refine ⟨d', ?_, ?_, ?_, ?_⟩
    · show runJob h World.sample fuel d (JobState.waiting ptr)
        (Response.interstitial :: Response.redirect :: alternating n) = _
      rw [runJob_cons_cons, hrun2, Option.some_bind, hrun]
      congr 3
      omega
    · rw [hcount, hcount2]
      omega
    · rw [htasks, htasks2]
    · have e : ptr + 2 * (n + 1) = ptr + 2 + 2 * n := by omega
      rw [e]
      exact hinv'

theorem installing_armed : Armed (Dialog.installing "http://drive/uc?id=1".toList) 1 := by
  refine ⟨by decide, by decide, by decide, ?_⟩
  intro e he
  have hobj : (Dialog.installing "http://drive/uc?id=1".toList).objects.map (fun e => e.1) = [1] := by
    decide
  have hmem : e.1 ∈ (Dialog.installing "http://drive/uc?id=1".toList).objects.map (fun e => e.1) :=
    List.mem_map_of_mem _ he
  rw [hobj, List.mem_singleton] at hmem
  rw [hmem]
  decide

/-- C13, the code on failing inputs: the job started by the install action on
`http://drive/uc?id=1` has one retry.  When every interstitial page it gets is
followed by a redirect, `n` pages and `n` redirects leave it with `n`
re-requests for the download link of the page issued, still waiting for a
reply and with one retry left again, whatever `n` is: the redirect branch
stores 1 as the remaining retries of the request it issues. -/
theorem C13_redirect_refills_budget (h : Header) (fuel : Nat) (n : Nat) :
    mapLookup 1 (Dialog.installing "http://drive/uc?id=1".toList).replies = some 1 ∧
    bypassCount (Dialog.installing "http://drive/uc?id=1".toList) = 0 ∧
    ∃ d, runJob h World.sample fuel (Dialog.installing "http://drive/uc?id=1".toList)
        (JobState.waiting 1) (alternating n) = some (d, JobState.waiting (1 + 2 * n)) ∧
      bypassCount d = n ∧ mapLookup (1 + 2 * n) d.replies = some 1 := by
  obtain ⟨d, hrun, hcount, -, hinv⟩ :=
    alternating_run h fuel n (Dialog.installing "http://drive/uc?id=1".toList) 1 installing_armed
  have hzero : bypassCount (Dialog.installing "http://drive/uc?id=1".toList) = 0 := by decide
  refine ⟨by decide, hzero, d, hrun, ?_, hinv.2.1⟩
  rw [hcount, hzero]
  omega

/-! ## Accounting of the task counter -/

theorem markDone_tasksRunning (d d1 : Dialog) (found : Bool) (listItem : Option Nat)
    (hmark : markDone d found listItem = some d1) : d1.tasksRunning = d.tasksRunning := by
  unfold markDone at hmark
  split_ifs at hmark
  · cases listItem with
    | none => simp at hmark
    | some item =>
      simp only [Option.map_some', Option.some.injEq] at hmark
      subst hmark
      rfl
  · simp only [Option.some.injEq] at hmark
    subst hmark
    rfl

/-- C8, the code at the failing input: the registry holds `A` at version `1`
with the feed `http://f/A.xml`, and the update button is pressed.  When the
feed answers directly with version `1`, the job resolves without any request
and the counter is back at 0.  When the feed request is first redirected
(status 302 to `http://f2/A.xml`) and the redirected request answers with the
same version `1`, the reply issued by the redirect branch carries no
`old_metadata`, the version counts as changed, and `extractDocset` requests the
archive `http://m/A.tgz`: the job is still waiting and the counter stays at
1. -/
theorem C8_redirect_drops_old_metadata :
    (runJob ⟨32, 32⟩ World.installed 3 (updateDocsets ⟨32, 32⟩ World.installed Dialog.init)
      (JobState.waiting 0)
      [{ Response.ok with feed := World.installed.meta "A".toList }]).map
        (fun s => (s.2, s.1.tasksRunning, s.1.log.drop 1))
      = some (JobState.resolved, 0, []) ∧
    (World.installed.meta "A".toList).version = "1".toList ∧
    (runJob ⟨32, 32⟩ World.installed 3 (updateDocsets ⟨32, 32⟩ World.installed Dialog.init)
      (JobState.waiting 0)
      [{ Response.ok with status := 302, location := "http://f2/A.xml".toList }]).map
        (fun s => (s.2, (replyAt s.1 1).oldMetadata))
      = some (JobState.waiting 1, none) ∧
    (runJob ⟨32, 32⟩ World.installed 3 (updateDocsets ⟨32, 32⟩ World.installed Dialog.init)
      (JobState.waiting 0)
      [{ Response.ok with status := 302, location := "http://f2/A.xml".toList },
        { Response.ok with feed := World.installed.meta "A".toList }]).map
        (fun s => (s.2, s.1.tasksRunning, s.1.log.drop 2))
      = some (JobState.waiting 2, 1,
          [Effect.get 2
            { followUp (parseUrl "http://m/A.tgz".toList) none with
              metadata := some { version := "1".toList, feedUrl := "http://f2/A.xml".toList,
                                 urls := ["http://m/A.tgz".toList] } }]) := by
  refine ⟨by decide, by decide, by decide, by decide⟩

/-! ## One retry of an invalid zip, up to the install -/

theorem finish_docsetsList (d : Dialog) : (finish d).docsetsList = d.docsetsList := by
  unfold finish
  split_ifs <;> rfl

theorem zipRoot_child (w : World) (dataDir : Path) (c : QString) (rest : List QString)
    (others : List Path) (fuel : Nat)
    (hex : ∀ q : Path, dataDir <+: q → q <+: dataDir ++ c :: rest →
      q ≠ dataDir ++ c :: rest → w.dirExists q = true)
    (hfuel : rest.length < fuel) :
    zipRoot w dataDir fuel ((dataDir ++ c :: rest) :: others) = some (dataDir ++ [c]) := by
  have hne : dataDir ++ c :: rest ≠ dataDir := by simp
  have hstep : zipRoot w dataDir fuel ((dataDir ++ c :: rest) :: others)
      = rootLoop w dataDir (fuel + 1) [] (dataDir ++ c :: rest) := by
    simp only [zipRoot, rootLoop, if_pos hne]
  rw [hstep]
  exact rootLoop_descend w dataDir c rest [] (fuel + 1) hex (by omega)

/-- The unzip handler on a dialog `dx`, for extracted files whose first lies
below the docsets directory: it registers the child of the docsets directory
on the way to the file, flags the item, and takes one task off the counter. -/
theorem zipFinished_installs (h : Header) (w : World) (fuel : Nat) (dx : Dialog)
    (dataDir : Path) (c : QString) (rest : List QString) (others : List Path)
    (listItem : Option Nat)
    (hex : ∀ q : Path, dataDir <+: q → q <+: dataDir ++ c :: rest →
      q ≠ dataDir ++ c :: rest → w.dirExists q = true)
    (hfuel : rest.length < fuel)
    (hnull : listItem = none → zipFound dx c = false) :
    ∃ d2, zipFinished h w fuel dx ((dataDir ++ c :: rest) :: others) dataDir listItem = some d2 ∧
      d2.log = dx.log ++ [Effect.addDocset (dataDir ++ [c])]
        ++ doneEffects (zipFound dx c) listItem ∧
      d2.tasksRunning = wrapS h.tasksBits (dx.tasksRunning - 1) := by
  have hroot := zipRoot_child w dataDir c rest others fuel hex hfuel
  have hlast : (dataDir ++ [c]).getLastD [] = c := by simp
  have hfound : zipFound (emit dx (Effect.addDocset (dataDir ++ [c]))) c = zipFound dx c := rfl
  obtain ⟨d1, hmark, hlog⟩ := markDone_log (emit dx (Effect.addDocset (dataDir ++ [c])))
    (zipFound dx c) listItem hnull
  refine ⟨endTasks h d1 1, ?_, ?_, ?_⟩
  · simp only [zipFinished, hroot, hlast, hfound, hmark, Option.map_some']
  · rw [endTasks_log, hlog]
    simp [emit]
  · rw [endTasks_tasksRunning, markDone_tasksRunning _ _ _ _ hmark]
    rfl

/-- C6, amended: every reply live after the install action has 1 remaining
retry, not 2.  For such a reply on a zip URL (neither feed nor tar-family), an
invalid-zip response whose page holds a download link `path?query`, with a
path that is a zip URL path again, issues exactly one new request, for the
link, with 0 remaining retries, and changes neither the list nor the counter.
A second invalid-zip response then ends the job in the invalid-ZIP message
with no request and `endTasks`.  A valid zip as second response, with the
docsets directory existing, the first extracted file below it (its ancestors
existing) and the item pointer null only if the docset is not listed, ends in
the install: the extraction, then in the handler `addDocset` of the child of
the docsets directory that holds the file, the done flag of the item when the
docset is listed, and `endTasks`. -/
theorem C6_retry_once (h : Header) (w : World) (fuel : Nat) (d0 d : Dialog) (ptr : Nat)
    (reply : Reply) (budget : Int) (resp1 resp2 : Response) (p q : QString) (t : List QString)
    (hidle : d0.replies = []) (hclick : on_downloadDocsetButton_clicked h w d0 = some d)
    (hlive : mapLookup ptr d.replies = some budget)
    (hpath : zipPath reply.url.path) (hpath2 : zipPath p)
    (hs1 : resp1.status ≠ 302) (hz1 : resp1.zipOpens = false)
    (hhref : split '?' resp1.href = p :: q :: t) (hs2 : resp2.status ≠ 302) :
    budget = 1 ∧
    ∃ d1, extractDocset h w d ptr reply resp1 = some (d1, none) ∧
      d1.log = d.log ++
        [Effect.get d.nextPtr (followUp { reply.url with path := p, query := q } reply.listItem)] ∧
      mapLookup d.nextPtr d1.replies = some 0 ∧
      d1.docsetsList = d.docsetsList ∧ d1.tasksRunning = d.tasksRunning ∧
      (resp2.zipOpens = false →
        ∃ d2, extractDocset h w d1 d.nextPtr
            (followUp { reply.url with path := p, query := q } reply.listItem) resp2
            = some (d2, none) ∧
          d2.log = d1.log ++ [invalidZip] ∧
          d2.tasksRunning = wrapS h.tasksBits (d1.tasksRunning - 1)) ∧
      (resp2.zipOpens = true → w.dataDirExists = true →
        ∀ (c : QString) (rest : List QString) (others : List Path),
          resp2.files = (w.dataDir ++ c :: rest) :: others →
          (∀ x : Path, w.dataDir <+: x → x <+: w.dataDir ++ c :: rest →
            x ≠ w.dataDir ++ c :: rest → w.dirExists x = true) →
          rest.length < fuel →
          (itemAt d1 reply.listItem = none → zipFound d1 c = false) →
          ∃ dx handler d2, extractDocset h w d1 d.nextPtr
              (followUp { reply.url with path := p, query := q } reply.listItem) resp2
              = some (dx, some handler) ∧
            runPending h w fuel dx handler = some d2 ∧
            d2.log = d1.log ++
              [Effect.extractDir w.dataDir, Effect.addDocset (w.dataDir ++ [c])] ++
              doneEffects (zipFound d1 c) (itemAt d1 reply.listItem) ∧
            d2.tasksRunning = wrapS h.tasksBits (d1.tasksRunning - 1)) := by
  have hbudget : budget = 1 := by
    have hd : d = installLoop h w d0 0 d0.docsetsList := by
      simp only [on_downloadDocsetButton_clicked, hidle, List.length_nil, gt_iff_lt,
        lt_self_iff_false, if_false, Option.some.injEq] at hclick
      exact hclick.symm
    have hmem := mem_of_mapLookup ptr budget d.replies hlive
    rw [hd] at hmem
    rcases installLoop_budget h w _ _ _ _ hmem with hin | hone
    · rw [hidle] at hin
      exact absurd hin (List.not_mem_nil _)
    · exact hone
  subst hbudget
  have hzero : wrapS 8 (1 - 1) = 0 := by decide
  have hrun := extractDocset_retry h w d ptr reply resp1 1 p q t hs1 hpath hz1 hlive
    (by norm_num) hhref
  obtain ⟨-, -, hlog1, hlook1, htasks1⟩ := request_facts
    { d with replies := mapErase ptr d.replies }
    (followUp { reply.url with path := p, query := q } reply.listItem) (1 - 1)
  have hlist1 : (finish (insertReply (naGet { d with replies := mapErase ptr d.replies }
      (followUp { reply.url with path := p, query := q } reply.listItem)).1
      d.nextPtr (1 - 1))).docsetsList = d.docsetsList := by
    rw [finish_docsetsList]
    rfl
  rw [hzero] at hlook1
  generalize finish (insertReply (naGet { d with replies := mapErase ptr d.replies }
      (followUp { reply.url with path := p, query := q } reply.listItem)).1
      d.nextPtr (1 - 1)) = d1 at hrun hlog1 hlook1 htasks1 hlist1
  refine ⟨rfl, d1, hrun, hlog1, hlook1, hlist1, htasks1, ?_, ?_⟩
  · intro hz2
    refine ⟨_, extractDocset_invalid h w d1 d.nextPtr _ resp2 0 hs2 hpath2 hz2 hlook1 le_rfl,
      ?_, ?_⟩
    · rw [finish_log, endTasks_log]
      rfl
    · rw [finish_tasksRunning, endTasks_tasksRunning]
      rfl
  · intro hz2 hdir c rest others hfiles hex hfuel hnull
    have hext := extractDocset_zip h w d1 d.nextPtr
      (followUp { reply.url with path := p, query := q } reply.listItem) resp2 hs2 hpath2 hz2
      hdir
    have hfoundx : zipFound (finish (emit { d1 with replies := mapErase d.nextPtr d1.replies }
        (Effect.extractDir w.dataDir))) c = zipFound d1 c := by
      unfold zipFound
      rw [finish_docsetsList]
      rfl
    obtain ⟨d2, hfin, hlog2, htasks2⟩ := zipFinished_installs h w fuel
      (finish (emit { d1 with replies := mapErase d.nextPtr d1.replies }
        (Effect.extractDir w.dataDir)))
      w.dataDir c rest others (itemAt d1 reply.listItem) hex hfuel
      (fun hn => by rw [hfoundx]; exact hnull hn)
    refine ⟨_, _, d2, hext, ?_, ?_, ?_⟩
    · rw [hfiles]
      exact hfin
    · rw [hlog2, hfoundx, finish_log]
      simp [emit]
    · rw [htasks2, finish_tasksRunning]
      rfl

/-- C6, amended, on a concrete job: the item `A` with the source
`http://drive/uc?id=1`, a first response that is an interstitial page linking
to `/uc?confirm=1`, then either a second response that is no zip either, or a
valid zip holding `A.docset/Contents/x`. -/
theorem C6_retry_once_witness :
    (Dialog.withChecked "http://drive/uc?id=1".toList).replies = [] ∧
    on_downloadDocsetButton_clicked ⟨32, 32⟩ World.sample
      (Dialog.withChecked "http://drive/uc?id=1".toList)
      = some (Dialog.installing "http://drive/uc?id=1".toList) ∧
    mapLookup 1 (Dialog.installing "http://drive/uc?id=1".toList).replies = some 1 ∧
    zipPath (replyAt (Dialog.installing "http://drive/uc?id=1".toList) 1).url.path ∧
    zipPath "/uc".toList ∧
    split '?' Response.interstitial.href = ["/uc".toList, "confirm=1".toList] ∧
    ∃ d1,
      extractDocset ⟨32, 32⟩ World.sample (Dialog.installing "http://drive/uc?id=1".toList) 1
        (replyAt (Dialog.installing "http://drive/uc?id=1".toList) 1)
        Response.interstitial = some (d1, none) ∧
      (∃ d2, extractDocset ⟨32, 32⟩ World.sample d1 2
          (followUp { (replyAt (Dialog.installing "http://drive/uc?id=1".toList) 1).url with
              path := "/uc".toList, query := "confirm=1".toList } (some 0))
          Response.ok = some (d2, none) ∧
        d2.log = d1.log ++ [invalidZip]) ∧
      (∃ dx handler d2, extractDocset ⟨32, 32⟩ World.sample d1 2
          (followUp { (replyAt (Dialog.installing "http://drive/uc?id=1".toList) 1).url with
              path := "/uc".toList, query := "confirm=1".toList } (some 0))
          Response.zip = some (dx, some handler) ∧
        runPending ⟨32, 32⟩ World.sample 3 dx handler = some d2 ∧
        d2.log = d1.log ++
          [Effect.extractDir ["docsets".toList],
            Effect.addDocset ["docsets".toList, "A.docset".toList],
            Effect.setDone 0]) := by
  refine ⟨rfl, by decide, by decide, by decide, by decide, by decide, ?_⟩
  obtain ⟨-, d1, hrun, -, -, hlist, -, hinvalid, -⟩ :=
    C6_retry_once ⟨32, 32⟩ World.sample 3 (Dialog.withChecked "http://drive/uc?id=1".toList)
      (Dialog.installing "http://drive/uc?id=1".toList) 1
      (replyAt (Dialog.installing "http://drive/uc?id=1".toList) 1) 1
      Response.interstitial Response.ok
      "/uc".toList "confirm=1".toList [] rfl (by decide) (by decide) (by decide) (by decide)
      (by decide) rfl (by decide) (by decide)
  obtain ⟨-, d1', hrun', -, -, -, -, -, hinstall⟩ :=
    C6_retry_once ⟨32, 32⟩ World.sample 3 (Dialog.withChecked "http://drive/uc?id=1".toList)
      (Dialog.installing "http://drive/uc?id=1".toList) 1
      (replyAt (Dialog.installing "http://drive/uc?id=1".toList) 1) 1
      Response.interstitial Response.zip
      "/uc".toList "confirm=1".toList [] rfl (by decide) (by decide) (by decide) (by decide)
      (by decide) rfl (by decide) (by decide)
  have hsame : d1' = d1 := by
    rw [hrun] at hrun'
    simp only [Option.some.injEq, Prod.mk.injEq, and_true] at hrun'
    exact hrun'.symm
  subst hsame
  have hitem : itemAt d1' (replyAt (Dialog.installing "http://drive/uc?id=1".toList) 1).listItem
      = some 0 := by
    unfold itemAt
    rw [hlist]
    decide
  have hfound : zipFound d1' "A.docset".toList = true := by
    unfold zipFound
    rw [hlist]
    decide
  obtain ⟨d2, hrun2, hlog2, -⟩ := hinvalid rfl
  obtain ⟨dx, handler, d3, hext, hfin, hlog3, -⟩ := hinstall rfl rfl "A.docset".toList
    ["Contents".toList, "x".toList] [] rfl (fun _ _ _ _ => rfl) (by decide)
    (fun hn => by rw [hitem] at hn; cases hn)
  refine ⟨d1', hrun, ⟨d2, hrun2, hlog2⟩, ⟨dx, handler, d3, hext, hfin, ?_⟩⟩
  rw [hlog3, hitem, hfound, List.append_assoc]
  rfl

end Zeal
